import Mathlib

/-!
Shallow embedding of the core of `TrademarkApp_V6_BI.py` (an Iranian trademark
intelligent-search assistant) and verification of its specification claims.

The embedding covers:
* `TextProcessor` (4-layer variant engine): stop-word root extraction,
  phonetic/visual confusable permutation, transliteration, translation split.
* `WorkerThread.run` / `scrape_all_pages` (search orchestration): modelled as a
  deterministic state-transition function over an environment that supplies the
  externally observed data (the `is_running` flag value at each read, the
  outcome of every search attempt, the operator-supplied captcha tokens, and
  the iteration order Python's hash-based `set` happens to produce).
* `WorkerThread.receive_captcha`: operator-side captcha submission.

Modelling notes (facts the code itself cannot show):
* Python `set` iteration order is unspecified (hash-randomised for strings), so
  every place the source converts a set to a list is parameterised by an
  enumeration function; `IsSetEnum` states exactly what any such enumeration
  guarantees (no duplicates, same membership).  Claims that do not depend on
  that order are stated for the canonical insertion-order enumeration.
* Python's `\w` regex class is modelled as ASCII alphanumerics, `_`, and the
  Arabic Unicode block U+0621..U+06FF (the alphabet the application uses);
  `\s` and `str.split()`/`str.strip()` whitespace as the ASCII whitespace set.
* The GUI, logging text, sleeps, the pause spin-wait, the first-run
  interstitial dismissal, and the class-codes field are not claim-relevant and
  are omitted; the captcha rendezvous is modelled as an oracle of operator
  tokens.  Text scraped from detail pages is abstracted to fixed placeholders;
  only the status/search-term/variant fields of records carry claim content.
-/

namespace TMSpec

/-- Whitespace characters (Python `str.split`, `str.strip`, regex `\s`). -/
def isPySpace (c : Char) : Bool :=
  c == ' ' || c == '\t' || c == '\n' || c == '\r' || c == '\x0b' || c == '\x0c'

/-- Word characters (Python regex `\w`): ASCII alphanumerics, underscore, and
the Arabic block used by the Persian alphabet. -/
def isPyWord (c : Char) : Bool :=
  c.isAlphanum || c == '_' || (decide (0x0621 ≤ c.toNat) && decide (c.toNat ≤ 0x06FF))

/-- Helper for `pySplit`: accumulates the current word (reversed) and splits on
whitespace runs, discarding empty words, as Python `str.split()` does. -/
def pySplitAux : List Char → List Char → List String
  | [], acc => if acc.isEmpty then [] else [String.mk acc.reverse]
  | c :: cs, acc =>
    if isPySpace c then
      if acc.isEmpty then pySplitAux cs [] else String.mk acc.reverse :: pySplitAux cs []
    else pySplitAux cs (c :: acc)

/-- Python `text.split()`: whitespace-delimited tokens, no empty tokens. -/
def pySplit (s : String) : List String :=
  pySplitAux s.data []

/-- Python `text.strip()`: remove leading and trailing whitespace. -/
def pyStrip (s : String) : String :=
  String.mk (((s.data.dropWhile isPySpace).reverse.dropWhile isPySpace).reverse)

/-- Python `" ".join(words)`. -/
def joinWords : List String → String
  | [] => ""
  | [w] => w
  | w :: v :: ws => w ++ " " ++ joinWords (v :: ws)

/-- Layer 4 vocabulary: descriptive terms (stop words), from
`TextProcessor.__init__`. -/
def stop_words : List String :=
  ["شرکت", "گروه", "صنعت", "صنعتی", "گستر", "گسترش", "پرداز", "پردازش",
   "فرا", "ایمن", "سازان", "سازه", "سیستم", "پارس", "نوین", "مهر",
   "تک", "برتر", "طلایی", "سبز", "جنوب", "شمال", "شرق", "غرب", "مرکزی",
   "ایرانیان", "توسعه", "فناوری", "خدمات", "مهندسی", "بازرگانی", "بین الملل",
   "پخش", "تولیدی", "آریا", "کیان", "پویا"]

/-- Layer 1: phonetic (homophone) substitution groups. -/
def phonetic_groups : List (List Char) :=
  [['س', 'ص', 'ث'],
   ['ز', 'ذ', 'ض', 'ظ'],
   ['ت', 'ط'],
   ['ه', 'ح'],
   ['غ', 'ق']]

/-- Layer 2: visual-similarity substitution groups. -/
def visual_groups : List (List Char) :=
  [['ک', 'گ'],
   ['ب', 'پ'],
   ['ج', 'چ'],
   ['ی', 'ئ']]

/-- Combined substitution groups, phonetic before visual
(`self.all_subs = self.phonetic_groups + self.visual_groups`). -/
def all_subs : List (List Char) :=
  phonetic_groups ++ visual_groups

/-- Layer 3: Persian-to-Fingilish transliteration map (`self.f_to_e_map`). -/
def f_to_e_map : List (Char × String) :=
  [('ا', "a"), ('آ', "a"), ('ب', "b"), ('پ', "p"), ('ت', "t"), ('ث', "s"),
   ('ج', "j"), ('چ', "ch"), ('ح', "h"), ('خ', "kh"), ('د', "d"), ('ذ', "z"),
   ('ر', "r"), ('ز', "z"), ('ژ', "zh"), ('س', "s"), ('ش', "sh"), ('ص', "s"),
   ('ض', "z"), ('ط', "t"), ('ظ', "z"), ('ع', "a"), ('غ', "gh"), ('ف', "f"),
   ('ق', "gh"), ('ک', "k"), ('گ', "g"), ('ل', "l"), ('م', "m"), ('ن', "n"),
   ('و', "v"), ('ه', "h"), ('ی', "y"), (' ', " ")]

/-- `TextProcessor.extract_core_root`: strip stop-word tokens; if that removes
every token, fall back to the unmodified input text. -/
def extract_core_root (text : String) : String :=
  if ((pySplit text).filter (fun w => !(stop_words.contains w))).isEmpty then text
  else joinWords ((pySplit text).filter (fun w => !(stop_words.contains w)))

/-- Per-character alternatives for `TextProcessor.generate_permutations`: the
first substitution group containing the character, else the character alone. -/
def charOptions (c : Char) : List Char :=
  match all_subs.find? (fun g => g.contains c) with
  | some g => g
  | none => [c]

/-- `itertools.product(*options)` in its iteration order (rightmost position
varies fastest). -/
def listProd : List (List Char) → List (List Char)
  | [] => [[]]
  | o :: rest => (o.map (fun c => (listProd rest).map (fun t => c :: t))).flatten

/-- The raw joined Cartesian-product strings of `generate_permutations`, in
product iteration order, before the `list(set(...))` conversion. -/
def rawProduct (text : String) : List String :=
  (listProd (text.data.map charOptions)).map String.mk

/-- A function standing for Python's `list(set(...))` conversion is admissible
iff it returns a duplicate-free list with the same membership as its input.
The actual iteration order of a Python `set` of strings is unspecified
(hash-randomised per process), so it is kept as a parameter `enum`. -/
def IsSetEnum (enum : List String → List String) : Prop :=
  ∀ l : List String, (enum l).Nodup ∧ ∀ s : String, s ∈ enum l ↔ s ∈ l

/-- `TextProcessor.generate_permutations`: full Cartesian product over the
per-character alternative sets, deduplicated through a Python set whose
enumeration is `enum`. -/
def generate_permutations (enum : List String → List String) (text : String) :
    List String :=
  enum (rawProduct text)

/-- Add a string to a duplicate-free list if absent (Python `set.add` with the
canonical insertion-order enumeration). -/
def insertIfAbsent (x : String) (l : List String) : List String :=
  if x ∈ l then l else l ++ [x]

/-- Canonical admissible `list(set(...))` enumeration: first-occurrence order. -/
def dedupKeepFirst (l : List String) : List String :=
  l.foldl (fun acc x => insertIfAbsent x acc) []

/-- Another admissible enumeration (reversed first-occurrence order), used to
exhibit order-dependence of the permutation cap. -/
def revEnum (l : List String) : List String :=
  (dedupKeepFirst l).reverse

/-- Translation extraction (`re.search(r'\((.*?)\)', raw_input)`): the text
between the first `(` and the first `)` after it.  (`.` not matching a newline
is irrelevant here: input lines cannot contain newlines.) -/
def translationOf (raw : String) : Option String :=
  match raw.data.dropWhile (fun c => !(c == '(')) with
  | [] => none
  | _ :: rest =>
    if rest.any (fun c => c == ')') then
      some (String.mk (rest.takeWhile (fun c => !(c == ')'))))
    else none

/-- Matches an initial segment of the second list against the first list and
returns the remainder on success. -/
def chopMatch : List Char → List Char → Option (List Char)
  | [], s => some s
  | _ :: _, [] => none
  | a :: as, b :: bs => if a == b then chopMatch as bs else none

/-- Fuel-driven helper for `pyReplace` (fuel bounds the input length so the
definition is structural and kernel-evaluable). -/
def replAux (p : Char) (ps repl : List Char) : ℕ → List Char → List Char
  | 0, s => s
  | _ + 1, [] => []
  | fuel + 1, c :: rest =>
    if c == p then
      match chopMatch ps rest with
      | some suf => repl ++ replAux p ps repl fuel suf
      | none => c :: replAux p ps repl fuel rest
    else c :: replAux p ps repl fuel rest

/-- Python `s.replace(pat, repl)`: replace every non-overlapping occurrence,
left to right.  (The empty-pattern case never arises: the pattern used by the
source is always `"(" + translation + ")"`.) -/
def pyReplace (s pat repl : String) : String :=
  match pat.data with
  | [] => s
  | p :: ps => String.mk (replAux p ps repl.data s.data.length s.data)

/-- The working text after removing the parenthesised translation
(`raw_input.replace(f"({translation})", "").strip()`), or the raw input when no
translation is present. -/
def persianPartOf (raw : String) : String :=
  match translationOf raw with
  | some t => pyStrip (pyReplace raw ("(" ++ t ++ ")") "")
  | none => raw

/-- The normalised clean name (`re.sub(r'[^\w\s]', '', persian_part).strip()`). -/
def cleanNameOf (raw : String) : String :=
  pyStrip (String.mk ((persianPartOf raw).data.filter (fun c => isPyWord c || isPySpace c)))

/-- The Layer-4 core root of an input. -/
def coreRootOf (raw : String) : String :=
  extract_core_root (cleanNameOf raw)

/-- Transliterate one character (`self.f_to_e_map.get(c, c)`). -/
def translitChar (c : Char) : String :=
  match f_to_e_map.find? (fun p => p.1 == c) with
  | some p => p.2
  | none => String.mk [c]

/-- The Fingilish rendering of the core root
(`"".join([self.f_to_e_map.get(c, c) for c in core_root])`). -/
def fingilishOf (raw : String) : String :=
  String.join ((coreRootOf raw).data.map translitChar)

/-- The variants contributed before normalisation: the explicit translation, if
present. -/
def baseVariants (raw : String) : List String :=
  match translationOf raw with
  | some t => [t]
  | none => []

/-- The permutation candidates actually taken from the deduplicated product:
all of them when fewer than 32, else the first 15 in `enum`'s order
(`perms[:15]`). -/
def permsTake (enum : List String → List String) (root : String) : List String :=
  if (generate_permutations enum root).length < 32 then generate_permutations enum root
  else (generate_permutations enum root).take 15

/-- The variant set after step 1 (`variants_to_search.add(clean_name)`). -/
def variantsStage1 (raw : String) : List String :=
  insertIfAbsent (cleanNameOf raw) (baseVariants raw)

/-- The variant set after step 2 (`if core_root != clean_name: ...add(core_root)`). -/
def variantsStage2 (raw : String) : List String :=
  if coreRootOf raw ≠ cleanNameOf raw then insertIfAbsent (coreRootOf raw) (variantsStage1 raw)
  else variantsStage1 raw

/-- The variant set after step 3 (confusable expansion, only when the core
root is shorter than 15 characters). -/
def variantsStage3 (enum : List String → List String) (raw : String) : List String :=
  if (coreRootOf raw).length < 15 then
    (permsTake enum (coreRootOf raw)).foldl (fun acc v => insertIfAbsent v acc)
      (variantsStage2 raw)
  else variantsStage2 raw

/-- The variant set built by `TextProcessor.analyze_name`, represented in
canonical insertion order (a Python `set` is unordered; all settled claims
about this set are order-independent). -/
def variantsOf (enum : List String → List String) (raw : String) : List String :=
  insertIfAbsent (fingilishOf raw) (variantsStage3 enum raw)

/-- The diagnostic report of `analyze_name` (`analysis_report` dict). -/
structure AnalysisReport where
  translation : Option String
  coreRoot : String
  fingilish : String
deriving DecidableEq

/-- `TextProcessor.analyze_name`: all four layers; returns the variant list and
the analysis report. -/
def analyze_name (enum : List String → List String) (raw : String) :
    List String × AnalysisReport :=
  (variantsOf enum raw, ⟨translationOf raw, coreRootOf raw, fingilishOf raw⟩)

/-! ### Worker-thread state (operator-facing flags)

`WorkerThread.__init__` fields mutated by the operator side. -/

/-- The worker's cross-thread flag state (`is_running`, `is_paused`,
`captcha_code`, `waiting_for_captcha`). -/
structure WState where
  captcha_code : Option String
  waiting_for_captcha : Bool
  is_running : Bool
  is_paused : Bool
deriving DecidableEq

/-- `WorkerThread.receive_captcha`: store the submitted code and clear the
waiting flag — unconditionally. -/
def receive_captcha (code : String) (s : WState) : WState :=
  { s with captcha_code := some code, waiting_for_captcha := false }

/-! ### Search orchestration (`WorkerThread.run` and `scrape_all_pages`)

The run loop is modelled as a deterministic function of an environment:
* `running k` is the value the `self.is_running` flag has at its `k`-th read
  (the flag is written only by the operator's `stop()`);
* `outcome ni vi ai` is what the site does on attempt `ai` of variant `vi` of
  name `ni`: a modal alert with some text, the literal no-records marker, a
  result listing (pages of result links, each link flagged by whether its
  detail fields extract cleanly), or an unexpected exception;
* `token t` is the `t`-th operator-supplied captcha code handed over by the
  captcha rendezvous (`get_captcha_image`);
* `enum` is the `list(set(...))` enumeration used by the variant engine;
* `fileNames` is the content of the input list file (`none` = read failure).

The trace of observable actions is recorded as a list of events, each stamped
with the number of `is_running` reads that preceded it. -/

/-- One emitted result row (the dict sent through `result_signal`).  Detail
text scraped from the site is abstracted to fixed placeholders; the claims
depend only on the search term, variant, and status fields. -/
structure Row where
  searchTerm : String
  variant : String
  status : String
  brand : String
  regNo : String
  owner : String
  goods : String
deriving DecidableEq, Repr

/-- The synthetic per-name summary row emitted when no conflict was found. -/
def summaryRow (name : String) : Row :=
  ⟨name, "مجموع بررسی‌ها", "آزاد (تأیید شده)", "---", "-", "بدون سابقه تعارض", "-"⟩

/-- The row `extract_data` emits for one result link: a conflict row when the
labelled detail cells parse, a degraded error row otherwise. -/
def linkRow (name variant : String) (ok : Bool) : Row :=
  if ok then ⟨name, variant, "دارای تعارض", "scraped", "scraped", "scraped", "scraped"⟩
  else ⟨name, variant, "خطا", "scraped", "-", "خطا در خواندن", "-"⟩

/-- The fate of one counted result link inside the per-page `for` loop of
`scrape_all_pages`: `row ok` — `extract_data` ran and emitted one row (a
conflict row when the labelled detail cells parsed, a degraded error row
otherwise); `skipped` — the link was counted in `total_items` but silently
produced no record at all (the per-link `except: pass`, the modal-wait
`except: pass`, or the `i >= len(links)` DOM-shrink break that abandons the
remaining links of the page). -/
inductive LinkFate where
  | row (ok : Bool) : LinkFate
  | skipped : LinkFate
deriving DecidableEq, Repr

/-- What the site does in response to one submitted search attempt:
a modal alert with text `msg`; the literal "رکوردی یافت نشد" (no records
found) marker; a result listing (`pages` are the per-page link lists the
successive `while` iterations of `scrape_all_pages` see, each counted link
carrying its fate, and `raises` tells whether the unguarded `find_elements`
at the top of the `while` iteration after the last listed page raises —
escaping `scrape_all_pages` after its rows were already emitted, so the
outer `except` branch discards the item count and retries the variant); or
an unexpected exception before any page was scanned (`netError`, the outer
`except` branch: log, refresh, sleep, re-acquire a captcha and re-enter the
loop). -/
inductive Outcome where
  | alert (msg : String) : Outcome
  | noRecords : Outcome
  | results (pages : List (List LinkFate)) (raises : Bool) : Outcome
  | netError : Outcome
deriving DecidableEq, Repr

/-- The value of `total_items` accumulated by an uncancelled
`scrape_all_pages` over the presented pages: each page's full link count is
added before any of its links is processed, and an empty page breaks the
loop. -/
def countedItems : List (List LinkFate) → ℕ
  | [] => 0
  | links :: rest => if links.isEmpty then 0 else links.length + countedItems rest

/-- Whether an uncancelled scrape of these pages ends with the unguarded
link lookup raising out of `scrape_all_pages` (so `total_items` is discarded
by the caller): the raise is reached only when no earlier empty page broke
the loop first. -/
def scrapeEscapes : List (List LinkFate) → Bool → Bool
  | [], raises => raises
  | links :: rest, raises => if links.isEmpty then false else scrapeEscapes rest raises

/-- The alert-text test selecting the captcha-retry branch
(`"کد امنیتی" in err or "اشتباه" in err`). -/
def leadMatch : List Char → List Char → Bool
  | [], _ => true
  | _ :: _, [] => false
  | a :: as, b :: bs => a == b && leadMatch as bs

/-- Substring test (Python `in` on strings). -/
def strHas (s pat : String) : Bool :=
  s.data.tails.any (fun t => leadMatch pat.data t)

/-- Whether an alert message is classified as an invalid/expired captcha. -/
def isCaptchaAlert (msg : String) : Bool :=
  strHas msg "کد امنیتی" || strHas msg "اشتباه"

/-- Whether this attempt outcome makes the `while not success` retry loop stop
(either via `success = True` or via `break`). -/
def Outcome.exits : Outcome → Bool
  | .alert msg => !isCaptchaAlert msg
  | .noRecords => true
  | .results pages raises => !scrapeEscapes pages raises
  | .netError => false

/-- Observable events of a run. -/
inductive Ev where
  | setupDriver : Ev
  | navigate : Ev
  | logFileError : Ev
  | acquireTok (t : ℕ) : Ev
  | search (ni vi ai : ℕ) (variant cap : String) : Ev
  | record (r : Row) : Ev
  | quitDriver : Ev
  | finished : Ev
deriving DecidableEq, Repr

/-- Run environment (externally supplied data; see the section comment). -/
structure WEnv where
  running : ℕ → Bool
  outcome : ℕ → ℕ → ℕ → Outcome
  token : ℕ → String
  enum : List String → List String
  fileNames : Option (List String)

/-- Worker-local run state: number of flag reads so far, number of captcha
acquisitions so far, the `current_captcha` local, and the emitted events (each
paired with the flag-read count at emission time). -/
structure WSt where
  clock : ℕ
  tok : ℕ
  cap : String
  events : List (ℕ × Ev)
deriving DecidableEq, Repr

/-- Append an event to the trace, stamped with the current read count. -/
def emit (e : Ev) (st : WSt) : WSt :=
  { st with events := st.events ++ [(st.clock, e)] }

/-- Account for one read of the `is_running` flag. -/
def bump (st : WSt) : WSt :=
  { st with clock := st.clock + 1 }

/-- One captcha acquisition (`get_captcha_image`): publish the widget image and
block until the operator supplies the next token. -/
def acquire (env : WEnv) (st : WSt) : WSt :=
  { emit (.acquireTok st.tok) st with tok := st.tok + 1, cap := env.token st.tok }

/-- The per-link loop of `scrape_all_pages`: checks `is_running` before each
link, emits one row per processed link and nothing for a silently skipped
one; returns `false` when cancelled mid-page (the code then does
`return total_items`). -/
def scrapeLinks (env : WEnv) (name variant : String) : List LinkFate → WSt → WSt × Bool
  | [], st => (st, true)
  | .row ok :: rest, st =>
    if env.running st.clock then
      scrapeLinks env name variant rest (emit (.record (linkRow name variant ok)) (bump st))
    else (bump st, false)
  | .skipped :: rest, st =>
    if env.running st.clock then
      scrapeLinks env name variant rest (bump st)
    else (bump st, false)

/-- `WorkerThread.scrape_all_pages`: paginate the result listing.  `pages` is
the per-page link list the site presents at each iteration of the
`while self.is_running` loop; the next-page control is present exactly when
further pages remain (or when `raises` schedules one more iteration, whose
unguarded link lookup then raises out of the function).  Each page's link
count is added to `total_items` before its links are processed; cancellation
mid-page does `return total_items`.  Returns the final state, the
accumulated `total_items`, and whether the lookup raised out of the function
(in which case the caller never sees the count). -/
def scrape_all_pages (env : WEnv) (name variant : String) (raises : Bool) :
    List (List LinkFate) → WSt → ℕ → WSt × ℕ × Bool
  | [], st, acc => (bump st, acc, env.running st.clock && raises)
  | links :: rest, st, acc =>
    if env.running st.clock then
      if links.isEmpty then (bump st, acc, false)
      else
        let r := scrapeLinks env name variant links (bump st)
        if r.2 then
          if rest.isEmpty && !raises then (r.1, acc + links.length, false)
          else scrape_all_pages env name variant raises rest r.1 (acc + links.length)
        else (r.1, acc + links.length, false)
    else (bump st, acc, false)

/-- The `while not success and self.is_running` retry loop for one variant.
`ai` counts attempts for this variant; `fuel` bounds the number of loop
iterations the model unrolls (the source loop is unbounded; every theorem
about this loop assumes an exiting outcome occurs within `fuel`).  A scrape
that raises out of `scrape_all_pages` lands in the outer `except` branch:
its item count is discarded and the variant is retried after a fresh captcha
acquisition.  Returns the state and whether this variant found a conflict
(`items > 0` on the attempt whose scrape completed). -/
def attemptLoop (env : WEnv) (ni vi : ℕ) (name variant : String) :
    ℕ → ℕ → WSt → WSt × Bool
  | 0, _, st => (st, false)
  | fuel + 1, ai, st =>
    if env.running st.clock then
      let st1 := emit (.search ni vi ai variant st.cap) (bump st)
      match env.outcome ni vi ai with
      | .alert msg =>
        if isCaptchaAlert msg then
          attemptLoop env ni vi name variant fuel (ai + 1) (acquire env st1)
        else (st1, false)
      | .noRecords => (st1, false)
      | .results pages raises =>
        let r := scrape_all_pages env name variant raises pages st1 0
        if r.2.2 then attemptLoop env ni vi name variant fuel (ai + 1) (acquire env r.1)
        else (r.1, decide (0 < r.2.1))
      | .netError => attemptLoop env ni vi name variant fuel (ai + 1) (acquire env st1)
    else (bump st, false)

/-- The `items` count of the attempt at which one variant's retry loop first
exits, following the loop from attempt `ai` with `fuel` iterations left: a
captcha alert, a net error and an escaping scrape pass to the next attempt
(any counted items discarded); a non-captcha alert or the no-records marker
exits with zero items; a completed scrape exits with its counted links. -/
def firstExitItems (env : WEnv) (ni vi : ℕ) : ℕ → ℕ → ℕ
  | 0, _ => 0
  | fuel + 1, ai =>
    match env.outcome ni vi ai with
    | .alert msg => if isCaptchaAlert msg then firstExitItems env ni vi fuel (ai + 1) else 0
    | .noRecords => 0
    | .results pages raises =>
      if scrapeEscapes pages raises then firstExitItems env ni vi fuel (ai + 1)
      else countedItems pages
    | .netError => firstExitItems env ni vi fuel (ai + 1)

/-- Total counted items over `vc` successive variants of name `ni` starting
at variant index `vi` — the quantity `found_any_conflict` is keyed on. -/
def variantsItems (env : WEnv) (fuel ni : ℕ) : ℕ → ℕ → ℕ
  | 0, _ => 0
  | vc + 1, vi => firstExitItems env ni vi fuel 0 + variantsItems env fuel ni vc (vi + 1)

/-- The `for variant in variants` loop: checks `is_running` per variant and
accumulates `found_any_conflict`. -/
def variantLoop (env : WEnv) (fuel ni : ℕ) (name : String) :
    List String → ℕ → WSt → Bool → WSt × Bool
  | [], _, st, found => (st, found)
  | v :: vs, vi, st, found =>
    if env.running st.clock then
      let r := attemptLoop env ni vi name v fuel 0 (bump st)
      variantLoop env fuel ni name vs (vi + 1) r.1 (found || r.2)
    else (bump st, found)

/-- The `for idx, name in enumerate(names)` loop: per name, checks
`is_running`, analyses the name, runs every variant, and emits the synthetic
clean summary row when no variant found a conflict. -/
def nameLoop (env : WEnv) (fuel : ℕ) : List String → ℕ → WSt → WSt
  | [], _, st => st
  | name :: rest, ni, st =>
    if env.running st.clock then
      let r := variantLoop env fuel ni name (analyze_name env.enum name).1 0 (bump st) false
      nameLoop env fuel rest (ni + 1) (if r.2 then r.1 else emit (.record (summaryRow name)) r.1)
    else bump st

/-- The name list parsed from the file (`[l.strip() for l in f if l.strip()]`). -/
def parsedNames (ls : List String) : List String :=
  (ls.map pyStrip).filter (fun s => s ≠ "")

/-- `WorkerThread.run`: driver setup and navigation happen first; then the
input file is read (failure logs and returns), the initial captcha is
acquired, the name loop runs, and the driver is closed. -/
def runWorker (env : WEnv) (fuel : ℕ) : WSt :=
  let st1 := emit .navigate (emit .setupDriver ⟨0, 0, "", []⟩)
  match env.fileNames with
  | none => emit .logFileError st1
  | some ls =>
    emit .finished (emit .quitDriver
      (nameLoop env fuel (parsedNames ls) 0 (acquire env st1)))

/-! ### Event classifiers and counters -/

/-- Search-attempt events. -/
def isSearchEv : Ev → Bool
  | .search _ _ _ _ _ => true
  | _ => false

/-- Search-attempt events of a given (name index, variant index). -/
def isSearchFor (ni vi : ℕ) : Ev → Bool
  | .search ni2 vi2 _ _ _ => decide (ni2 = ni) && decide (vi2 = vi)
  | _ => false

/-- Emitted result rows of any kind. -/
def isRecordEv : Ev → Bool
  | .record _ => true
  | _ => false

/-- Scraped rows (status conflict or error) — the rows `extract_data` emits. -/
def isScrapedRec : Ev → Bool
  | .record r => r.status == "دارای تعارض" || r.status == "خطا"
  | _ => false

/-- Scraped rows whose search term is `n`. -/
def isScrapedFor (n : String) : Ev → Bool
  | .record r => (r.status == "دارای تعارض" || r.status == "خطا") && r.searchTerm == n
  | _ => false

/-- Synthetic clean-summary rows whose search term is `n`. -/
def isSummaryFor (n : String) : Ev → Bool
  | .record r => r.status == "آزاد (تأیید شده)" && r.searchTerm == n
  | _ => false

/-- Captcha-acquisition events. -/
def isAcquireEv : Ev → Bool
  | .acquireTok _ => true
  | _ => false

/-- Number of trace events matching a classifier. -/
def countOf (f : Ev → Bool) (l : List (ℕ × Ev)) : ℕ :=
  l.countP (fun p => f p.2)

/-- An event is flag-guarded when, if it is a search attempt or a scraped
record, it was emitted immediately after a read of `is_running` that returned
true. -/
def GoodEv (env : WEnv) (p : ℕ × Ev) : Prop :=
  (isSearchEv p.2 = true ∨ isScrapedRec p.2 = true) →
    0 < p.1 ∧ env.running (p.1 - 1) = true

/-! ### Concrete environments for counterexamples and witnesses -/

/-- Uncancelled one-name run: the first variant's single result page presents
one link whose processing is silently skipped (counted in `total_items`, no
record emitted); every other variant finds no records. -/
def envC1 : WEnv :=
  ⟨fun _ => true,
    fun ni vi _ => if ni == 0 && vi == 0 then .results [[.skipped]] false else .noRecords,
    fun _ => "t", dedupKeepFirst, some ["اب"]⟩

/-- One-name run cancelled at the third flag read (before any search). -/
def envC2 : WEnv :=
  ⟨fun k => decide (k < 2), fun _ _ _ => .noRecords, fun _ => "t", dedupKeepFirst,
    some ["اب"]⟩

/-- Uncancelled clean one-name run. -/
def envOk : WEnv :=
  ⟨fun _ => true, fun _ _ _ => .noRecords, fun _ => "t", dedupKeepFirst, some ["اب"]⟩

/-- Unreadable input file. -/
def envNoFile : WEnv :=
  ⟨fun _ => true, fun _ _ _ => .noRecords, fun _ => "t", dedupKeepFirst, none⟩

/-- First attempt of every variant hits an invalid-captcha alert; the retry
finds no records. -/
def envC8 : WEnv :=
  ⟨fun _ => true, fun _ _ ai => if ai = 0 then .alert "کد امنیتی اشتباه است" else .noRecords,
    fun _ => "tok", dedupKeepFirst, some ["اب"]⟩

/-- An initial worker state for loop-level witnesses. -/
def wst0 : WSt := ⟨0, 0, "c0", []⟩

/-- A worker flag state with no captcha acquisition pending. -/
def sIdle : WState := ⟨none, false, true, false⟩

/-! ## Basic lemmas about the set representation -/

theorem mem_insertIfAbsent {s x : String} {l : List String} :
    s ∈ insertIfAbsent x l ↔ s = x ∨ s ∈ l := by
  unfold insertIfAbsent
  by_cases hx : x ∈ l
  · simp only [if_pos hx]
    constructor
    · exact Or.inr
    · rintro (rfl | h)
      · exact hx
      · exact h
  · simp [if_neg hx, or_comm]

theorem insertIfAbsent_nodup {x : String} {l : List String} (h : l.Nodup) :
    (insertIfAbsent x l).Nodup := by
  unfold insertIfAbsent
  by_cases hx : x ∈ l
  · simpa [if_pos hx] using h
  · simp [if_neg hx, List.nodup_append, h, hx]

theorem mem_foldl_insert {s : String} :
    ∀ (xs acc : List String),
      s ∈ xs.foldl (fun a v => insertIfAbsent v a) acc ↔ s ∈ acc ∨ s ∈ xs := by
  intro xs
  induction xs with
  | nil => simp
  | cons x xs ih =>
    intro acc
    rw [List.foldl_cons, ih, mem_insertIfAbsent]
    simp only [List.mem_cons]
    tauto

theorem foldl_insert_nodup :
    ∀ (xs acc : List String), acc.Nodup →
      (xs.foldl (fun a v => insertIfAbsent v a) acc).Nodup := by
  intro xs
  induction xs with
  | nil => intro acc h; simpa using h
  | cons x xs ih =>
    intro acc h
    rw [List.foldl_cons]
    exact ih _ (insertIfAbsent_nodup h)

theorem dedupKeepFirst_nodup (l : List String) : (dedupKeepFirst l).Nodup :=
  foldl_insert_nodup l [] List.nodup_nil

theorem mem_dedupKeepFirst {s : String} {l : List String} :
    s ∈ dedupKeepFirst l ↔ s ∈ l := by
  unfold dedupKeepFirst
  rw [mem_foldl_insert]
  simp

theorem isSetEnum_dedupKeepFirst : IsSetEnum dedupKeepFirst := fun l =>
  ⟨dedupKeepFirst_nodup l, fun _ => mem_dedupKeepFirst⟩

theorem isSetEnum_revEnum : IsSetEnum revEnum := fun l =>
  ⟨by rw [revEnum, List.nodup_reverse]; exact dedupKeepFirst_nodup l,
   fun s => by rw [revEnum, List.mem_reverse]; exact mem_dedupKeepFirst⟩

/-! ## Lemmas about the variant engine -/

theorem mem_variantsOf {enum : List String → List String} {raw s : String} :
    s ∈ variantsOf enum raw ↔
      (s = fingilishOf raw ∨ s = cleanNameOf raw ∨ s ∈ baseVariants raw)
      ∨ (coreRootOf raw ≠ cleanNameOf raw ∧ s = coreRootOf raw)
      ∨ ((coreRootOf raw).length < 15 ∧ s ∈ permsTake enum (coreRootOf raw)) := by
  unfold variantsOf variantsStage3 variantsStage2 variantsStage1
  split_ifs with hr hl hl <;>
    simp only [mem_insertIfAbsent, mem_foldl_insert] <;> itauto

theorem variantsOf_nodup (enum : List String → List String) (raw : String) :
    (variantsOf enum raw).Nodup := by
  have hbase : (baseVariants raw).Nodup := by
    unfold baseVariants
    cases translationOf raw <;> simp
  have h1 : (variantsStage1 raw).Nodup := insertIfAbsent_nodup hbase
  have h2 : (variantsStage2 raw).Nodup := by
    unfold variantsStage2
    split
    · exact insertIfAbsent_nodup h1
    · exact h1
  have h3 : (variantsStage3 enum raw).Nodup := by
    unfold variantsStage3
    split
    · exact foldl_insert_nodup _ _ h2
    · exact h2
  exact insertIfAbsent_nodup h3

theorem pySplitAux_words_ne :
    ∀ (l acc : List Char), ∀ w ∈ pySplitAux l acc, w ≠ "" := by
  intro l
  induction l with
  | nil =>
    intro acc w hw
    unfold pySplitAux at hw
    split at hw
    · simp at hw
    · rename_i h
      rw [List.mem_singleton] at hw
      subst hw
      intro hcon
      have hrev : acc.reverse = [] := by
        simpa [String.ext_iff] using hcon
      rw [List.reverse_eq_nil_iff] at hrev
      rw [hrev] at h
      simp at h
  | cons c cs ih =>
    intro acc w hw
    unfold pySplitAux at hw
    split at hw
    · split at hw
      · exact ih [] w hw
      · rename_i hsp h
        rw [List.mem_cons] at hw
        rcases hw with rfl | hw
        · intro hcon
          have hrev : acc.reverse = [] := by
            simpa [String.ext_iff] using hcon
          rw [List.reverse_eq_nil_iff] at hrev
          rw [hrev] at h
          simp at h
        · exact ih [] w hw
    · exact ih _ w hw

theorem pySplit_words_ne (s : String) : ∀ w ∈ pySplit s, w ≠ "" :=
  pySplitAux_words_ne s.data []

theorem joinWords_ne :
    ∀ (ws : List String), ws ≠ [] → (∀ w ∈ ws, w ≠ "") → joinWords ws ≠ "" := by
  intro ws
  match ws with
  | [] => intro h; exact absurd rfl h
  | [w] =>
    intro _ h
    simpa [joinWords] using h w (by simp)
  | w :: v :: rest =>
    intro _ h
    have hw : w ≠ "" := h w (by simp)
    simp only [joinWords, ne_eq, String.ext_iff]
    intro hcon
    rw [String.data_append, String.data_append] at hcon
    rcases List.append_eq_nil.mp hcon with ⟨h1, _⟩
    rcases List.append_eq_nil.mp h1 with ⟨h2, _⟩
    exact hw (String.ext h2)

theorem pyStrip_all_space {l : List Char} (h : ∀ c ∈ l, isPySpace c = true) :
    pyStrip (String.mk l) = "" := by
  unfold pyStrip
  have h1 : l.dropWhile isPySpace = [] := by
    rw [List.dropWhile_eq_nil_iff]
    intro c hc
    exact h c hc
  simp [h1]

theorem analyze_name_fst (enum : List String → List String) (raw : String) :
    (analyze_name enum raw).1 = variantsOf enum raw := by
  unfold analyze_name
  rfl

/-! ## Claims about the variant engine (C3 - C6, C10) -/

/-- Claim C6 (confirmed): for every input string, the variant set returned by
`analyze_name` contains the normalized clean name and the transliteration of
the core root, and contains no duplicate strings. -/
theorem C6_variant_set_basics (enum : List String → List String) (raw : String) :
    cleanNameOf raw ∈ (analyze_name enum raw).1
    ∧ fingilishOf raw ∈ (analyze_name enum raw).1
    ∧ (analyze_name enum raw).1.Nodup := by
  rw [analyze_name_fst]
  exact ⟨mem_variantsOf.mpr (Or.inl (Or.inr (Or.inl rfl))),
    mem_variantsOf.mpr (Or.inl (Or.inl rfl)),
    variantsOf_nodup enum raw⟩

/-- Claim C4 (confirmed): when the core root has length 15 or more, no
confusable expansion happens — the variant set is exactly the translation (if
any), the clean name, the core root, and the transliterated core root. -/
theorem C4_long_root_no_expansion (enum : List String → List String) (raw : String)
    (hlen : 15 ≤ (coreRootOf raw).length) (s : String) :
    s ∈ (analyze_name enum raw).1 ↔
      translationOf raw = some s ∨ s = cleanNameOf raw ∨ s = coreRootOf raw
        ∨ s = fingilishOf raw := by
  have h15 : ¬ ((coreRootOf raw).length < 15) := by omega
  have hbase : ∀ t : String, t ∈ baseVariants raw ↔ translationOf raw = some t := by
    intro t
    unfold baseVariants
    cases htr : translationOf raw <;> simp [eq_comm]
  rw [analyze_name_fst, mem_variantsOf]
  simp only [hbase]
  by_cases hr : coreRootOf raw = cleanNameOf raw
  · rw [hr] at h15 ⊢
    have hrefl : ¬ (cleanNameOf raw ≠ cleanNameOf raw) := fun hcon => hcon rfl
    itauto
  · itauto

set_option maxRecDepth 20000 in
/-- Witness for C4 at a 16-character root. -/
theorem C4_witness :
    15 ≤ (coreRootOf "اباباباباباباباب").length
    ∧ (fingilishOf "اباباباباباباباب" ∈ (analyze_name dedupKeepFirst "اباباباباباباباب").1 ↔
        (translationOf "اباباباباباباباب" = some (fingilishOf "اباباباباباباباب")
          ∨ fingilishOf "اباباباباباباباب" = cleanNameOf "اباباباباباباباب"
          ∨ fingilishOf "اباباباباباباباب" = coreRootOf "اباباباباباباباب"
          ∨ fingilishOf "اباباباباباباباب" = fingilishOf "اباباباباباباباب")) :=
  ⟨by decide,
   C4_long_root_no_expansion dedupKeepFirst "اباباباباباباباب" (by decide)
     (fingilishOf "اباباباباباباباب")⟩

/-- Claim C5 counterexample: core-root extraction of the empty string returns
the empty string, so extraction does not return a non-empty string for every
input string. -/
theorem C5_counterexample : extract_core_root "" = "" := by decide

/-- Claim C5 (amended): whenever stop-word removal leaves no tokens the
extraction falls back to the unmodified input; the result is non-empty for
every non-empty input (the empty input is returned unchanged). -/
theorem C5_amended_thm (text : String) :
    ((pySplit text).filter (fun w => !(stop_words.contains w)) = [] →
      extract_core_root text = text)
    ∧ (text ≠ "" → extract_core_root text ≠ "") := by
  constructor
  · intro h
    unfold extract_core_root
    rw [h]
    simp
  · intro ht
    unfold extract_core_root
    split
    · exact ht
    · rename_i hne
      apply joinWords_ne
      · intro hcon
        rw [hcon] at hne
        simp at hne
      · intro w hw
        exact pySplit_words_ne text w (List.mem_of_mem_filter hw)

/-- Witness for C5 on an input made entirely of stop words. -/
theorem C5_witness :
    ((pySplit "شرکت توسعه").filter (fun w => !(stop_words.contains w)) = []
      ∧ extract_core_root "شرکت توسعه" = "شرکت توسعه")
    ∧ ("شرکت توسعه" ≠ "" ∧ extract_core_root "شرکت توسعه" ≠ "") :=
  ⟨⟨by decide, (C5_amended_thm "شرکت توسعه").1 (by decide)⟩,
   ⟨by decide, (C5_amended_thm "شرکت توسعه").2 (by decide)⟩⟩

/-- Claim C10 (confirmed): when the text outside the parenthesised segment has
no word character, normalization yields the empty string, core-root extraction
returns the empty string, and the empty string is a member of the variant set
(and hence becomes a search term). -/
theorem C10_empty_search_term (enum : List String → List String) (raw : String)
    (h : ∀ c ∈ (persianPartOf raw).data, isPyWord c = false) :
    cleanNameOf raw = "" ∧ coreRootOf raw = "" ∧ "" ∈ (analyze_name enum raw).1 := by
  have hclean : cleanNameOf raw = "" := by
    unfold cleanNameOf
    apply pyStrip_all_space
    intro c hc
    rw [List.mem_filter] at hc
    rcases hc with ⟨hmem, hcond⟩
    have hw := h c hmem
    rw [hw] at hcond
    simpa using hcond
  have hroot : coreRootOf raw = "" := by
    unfold coreRootOf
    rw [hclean]
    decide
  refine ⟨hclean, hroot, ?_⟩
  rw [analyze_name_fst]
  exact mem_variantsOf.mpr (Or.inl (Or.inr (Or.inl hclean.symm)))

set_option maxRecDepth 20000 in
/-- Witness for C10 on a punctuation-only name with a translation. -/
theorem C10_witness :
    (∀ c ∈ (persianPartOf "!!! (Apple)").data, isPyWord c = false)
    ∧ (cleanNameOf "!!! (Apple)" = "" ∧ coreRootOf "!!! (Apple)" = ""
        ∧ "" ∈ (analyze_name dedupKeepFirst "!!! (Apple)").1) :=
  ⟨by decide, C10_empty_search_term dedupKeepFirst "!!! (Apple)" (by decide)⟩

set_option maxRecDepth 20000 in
/-- Claim C3 counterexample: the deduplicated product is enumerated in the
(unspecified) Python-set order before the first 15 are taken, so with the
admissible enumeration `revEnum` the variant `"سسسص"` — the second member of
the product in product iteration order, hence among "the first 15 members in
product iteration order" — is not added to the variant set of `"سسسس"` even
though the product has 81 ≥ 32 members and the root is short. -/
theorem C3_counterexample :
    IsSetEnum revEnum
    ∧ (coreRootOf "سسسس").length < 15
    ∧ (rawProduct (coreRootOf "سسسس")).Nodup
    ∧ 32 ≤ (generate_permutations revEnum (coreRootOf "سسسس")).length
    ∧ "سسسص" ∈ (rawProduct (coreRootOf "سسسس")).take 15
    ∧ "سسسص" ∉ (analyze_name revEnum "سسسس").1 :=
  ⟨isSetEnum_revEnum, by decide, by decide, by decide, by decide, by decide⟩

/-- Claim C3 (amended): for a core root shorter than 15 characters the full
Cartesian product is computed and deduplicated; if the deduplicated count is
below 32 every member enters the variant set; otherwise exactly 15 distinct
members of the product — the first 15 in the Python set's unspecified
enumeration order, not necessarily in product iteration order — are added. -/
theorem C3_amended_thm (enum : List String → List String) (h : IsSetEnum enum)
    (raw : String) (hlen : (coreRootOf raw).length < 15) :
    (∀ s, s ∈ generate_permutations enum (coreRootOf raw) ↔ s ∈ rawProduct (coreRootOf raw))
    ∧ ((generate_permutations enum (coreRootOf raw)).length < 32 →
        ∀ s ∈ rawProduct (coreRootOf raw), s ∈ (analyze_name enum raw).1)
    ∧ (32 ≤ (generate_permutations enum (coreRootOf raw)).length →
        (permsTake enum (coreRootOf raw)).length = 15
        ∧ (permsTake enum (coreRootOf raw)).Nodup
        ∧ ∀ s ∈ permsTake enum (coreRootOf raw),
            s ∈ rawProduct (coreRootOf raw) ∧ s ∈ (analyze_name enum raw).1) := by
  rw [analyze_name_fst]
  obtain ⟨hnd, hmem⟩ := h (rawProduct (coreRootOf raw))
  refine ⟨fun s => hmem s, ?_, ?_⟩
  · intro h32 s hs
    have hsp : s ∈ permsTake enum (coreRootOf raw) := by
      unfold permsTake
      rw [if_pos h32]
      exact (hmem s).mpr hs
    exact mem_variantsOf.mpr (Or.inr (Or.inr ⟨hlen, hsp⟩))
  · intro h32
    have hneg : ¬ ((generate_permutations enum (coreRootOf raw)).length < 32) := by omega
    have hpt : permsTake enum (coreRootOf raw)
        = (generate_permutations enum (coreRootOf raw)).take 15 := by
      unfold permsTake
      rw [if_neg hneg]
    refine ⟨?_, ?_, ?_⟩
    · rw [hpt, List.length_take]
      omega
    · rw [hpt]
      exact (List.take_sublist 15 _).nodup hnd
    · intro s hs
      have hsg : s ∈ generate_permutations enum (coreRootOf raw) := by
        rw [hpt] at hs
        exact List.take_subset 15 _ hs
      exact ⟨(hmem s).mp hsg, mem_variantsOf.mpr (Or.inr (Or.inr ⟨hlen, hs⟩))⟩

set_option maxRecDepth 20000 in
/-- Witness for C3's amended statement on a 2-character root (9-member product). -/
theorem C3_witness :
    (coreRootOf "سس").length < 15
    ∧ ((generate_permutations dedupKeepFirst (coreRootOf "سس")).length < 32 →
        ∀ s ∈ rawProduct (coreRootOf "سس"), s ∈ (analyze_name dedupKeepFirst "سس").1) :=
  ⟨by decide, (C3_amended_thm dedupKeepFirst isSetEnum_dedupKeepFirst "سس" (by decide)).2.1⟩

/-! ## Claim C9: operator-side captcha submission -/

/-- Claim C9 counterexample: submitting a captcha code while no acquisition is
pending is not a no-op — the stored `captcha_code` field changes. -/
theorem C9_counterexample :
    sIdle.waiting_for_captcha = false ∧ receive_captcha "123" sIdle ≠ sIdle :=
  ⟨rfl, by decide⟩

/-- Claim C9 (amended): while no acquisition is pending, `receive_captcha`
leaves the waiting flag false and the run/pause flags unchanged, but it
unconditionally overwrites the stored captcha code with the submitted token
(that stored code only reaches a search attempt through a later acquisition,
which itself overwrites it first in normal flow). -/
theorem C9_amended_thm (code : String) (s : WState)
    (_h : s.waiting_for_captcha = false) :
    (receive_captcha code s).waiting_for_captcha = false
    ∧ (receive_captcha code s).is_running = s.is_running
    ∧ (receive_captcha code s).is_paused = s.is_paused
    ∧ (receive_captcha code s).captcha_code = some code :=
  ⟨rfl, rfl, rfl, rfl⟩

/-- Witness for C9's amended statement. -/
theorem C9_witness :
    sIdle.waiting_for_captcha = false
    ∧ ((receive_captcha "77" sIdle).waiting_for_captcha = false
        ∧ (receive_captcha "77" sIdle).is_running = sIdle.is_running
        ∧ (receive_captcha "77" sIdle).is_paused = sIdle.is_paused
        ∧ (receive_captcha "77" sIdle).captcha_code = some "77") :=
  ⟨rfl, C9_amended_thm "77" sIdle rfl⟩

/-! ## Claim C7: unreadable input file -/

/-- Claim C7 counterexample: with an unreadable input file the worker logs the
error and terminates without any search attempt, but only after the browser
session was started and the search page was navigated to — the trace of the
run contains the navigation event. -/
theorem C7_counterexample :
    envNoFile.fileNames = none
    ∧ (0, Ev.navigate) ∈ (runWorker envNoFile 1).events
    ∧ ∀ p ∈ (runWorker envNoFile 1).events, isSearchEv p.2 = false := by
  refine ⟨rfl, ?_, ?_⟩ <;> decide

/-- Claim C7 (amended): an unreadable input list is fatal — the error is
logged and the worker terminates with no search attempt, no records, no driver
shutdown and no completion signal — but the browser session has already been
started and the search page navigated to before the file is read. -/
theorem C7_amended_thm (env : WEnv) (fuel : ℕ) (h : env.fileNames = none) :
    (runWorker env fuel).events
      = [(0, .setupDriver), (0, .navigate), (0, .logFileError)] := by
  unfold runWorker
  rw [h]
  rfl

/-- Witness for C7's amended statement. -/
theorem C7_witness :
    envNoFile.fileNames = none
    ∧ (runWorker envNoFile 1).events
        = [(0, .setupDriver), (0, .navigate), (0, .logFileError)] :=
  ⟨rfl, C7_amended_thm envNoFile 1 rfl⟩

/-! ## Counting lemmas for the run trace -/

theorem countOf_append (f : Ev → Bool) (a b : List (ℕ × Ev)) :
    countOf f (a ++ b) = countOf f a + countOf f b := by
  unfold countOf
  rw [List.countP_append]

theorem countOf_single (f : Ev → Bool) (k : ℕ) (e : Ev) :
    countOf f [(k, e)] = if f e then 1 else 0 := by
  simp [countOf, List.countP_cons]

theorem countOf_emit (f : Ev → Bool) (e : Ev) (st : WSt) :
    countOf f (emit e st).events = countOf f st.events + (if f e then 1 else 0) := by
  rw [show (emit e st).events = st.events ++ [(st.clock, e)] from rfl,
    countOf_append, countOf_single]

theorem countOf_bump (f : Ev → Bool) (st : WSt) :
    countOf f (bump st).events = countOf f st.events := rfl

theorem countOf_acquire (f : Ev → Bool) (env : WEnv) (st : WSt) :
    countOf f (acquire env st).events
      = countOf f st.events + (if f (.acquireTok st.tok) then 1 else 0) := by
  rw [show (acquire env st).events = st.events ++ [(st.clock, .acquireTok st.tok)] from rfl,
    countOf_append, countOf_single]

/-! ### Pointwise classifier evaluations -/

@[simp] theorem isScrapedFor_linkRow (s name variant : String) (ok : Bool) :
    isScrapedFor s (.record (linkRow name variant ok)) = (name == s) := by
  cases ok <;> rfl

@[simp] theorem isSummaryFor_linkRow (s name variant : String) (ok : Bool) :
    isSummaryFor s (.record (linkRow name variant ok)) = false := by
  cases ok <;> rfl

@[simp] theorem isScrapedFor_summaryRow (s name : String) :
    isScrapedFor s (.record (summaryRow name)) = false := rfl

@[simp] theorem isSummaryFor_summaryRow (s name : String) :
    isSummaryFor s (.record (summaryRow name)) = (name == s) := rfl

@[simp] theorem isScrapedFor_search (s : String) (a b c : ℕ) (v cap : String) :
    isScrapedFor s (.search a b c v cap) = false := rfl

@[simp] theorem isSummaryFor_search (s : String) (a b c : ℕ) (v cap : String) :
    isSummaryFor s (.search a b c v cap) = false := rfl

@[simp] theorem isSearchFor_record (a b : ℕ) (r : Row) :
    isSearchFor a b (.record r) = false := rfl

@[simp] theorem isSearchFor_search_self (ni vi ai : ℕ) (v cap : String) :
    isSearchFor ni vi (.search ni vi ai v cap) = true := by
  simp [isSearchFor]

@[simp] theorem isScrapedFor_acquireTok (s : String) (t : ℕ) :
    isScrapedFor s (.acquireTok t) = false := rfl

@[simp] theorem isSummaryFor_acquireTok (s : String) (t : ℕ) :
    isSummaryFor s (.acquireTok t) = false := rfl

@[simp] theorem isSearchFor_acquireTok (a b : ℕ) (t : ℕ) :
    isSearchFor a b (.acquireTok t) = false := rfl

@[simp] theorem isAcquireEv_acquireTok (t : ℕ) : isAcquireEv (.acquireTok t) = true := rfl

@[simp] theorem isAcquireEv_record (r : Row) : isAcquireEv (.record r) = false := rfl

@[simp] theorem isAcquireEv_search (a b c : ℕ) (v cap : String) :
    isAcquireEv (.search a b c v cap) = false := rfl

@[simp] theorem isRecordEv_record (r : Row) : isRecordEv (.record r) = true := rfl

@[simp] theorem isRecordEv_search (a b c : ℕ) (v cap : String) :
    isRecordEv (.search a b c v cap) = false := rfl

@[simp] theorem isRecordEv_acquireTok (t : ℕ) : isRecordEv (.acquireTok t) = false := rfl

@[simp] theorem isScrapedRec_linkRow (name variant : String) (ok : Bool) :
    isScrapedRec (.record (linkRow name variant ok)) = true := by
  cases ok <;> rfl

@[simp] theorem isScrapedRec_summaryRow (name : String) :
    isScrapedRec (.record (summaryRow name)) = false := rfl

@[simp] theorem isSearchEv_search (a b c : ℕ) (v cap : String) :
    isSearchEv (.search a b c v cap) = true := rfl

/-! ### Per-function trace specifications for uncancelled runs -/

theorem scrapeLinks_spec (env : WEnv) (name variant : String)
    (hrun : ∀ k, env.running k = true) :
    ∀ (links : List LinkFate) (st : WSt),
      (scrapeLinks env name variant links st).2 = true
      ∧ (∀ s, countOf (isSummaryFor s) (scrapeLinks env name variant links st).1.events
          = countOf (isSummaryFor s) st.events)
      ∧ (∀ a b, countOf (isSearchFor a b) (scrapeLinks env name variant links st).1.events
          = countOf (isSearchFor a b) st.events)
      ∧ countOf isAcquireEv (scrapeLinks env name variant links st).1.events
          = countOf isAcquireEv st.events := by
  intro links
  induction links with
  | nil =>
    intro st
    exact ⟨rfl, fun s => rfl, fun a b => rfl, rfl⟩
  | cons fate rest ih =>
    intro st
    have hr := hrun st.clock
    cases fate with
    | row ok =>
      have hstep : scrapeLinks env name variant (.row ok :: rest) st
          = scrapeLinks env name variant rest
              (emit (.record (linkRow name variant ok)) (bump st)) := by
        simp [scrapeLinks, hr]
      obtain ⟨i1, i2, i3, i4⟩ := ih (emit (.record (linkRow name variant ok)) (bump st))
      refine ⟨by rw [hstep]; exact i1, ?_, ?_, ?_⟩
      · intro s
        rw [hstep, i2 s, countOf_emit, countOf_bump]
        simp
      · intro a b
        rw [hstep, i3 a b, countOf_emit, countOf_bump]
        simp
      · rw [hstep, i4, countOf_emit, countOf_bump]
        simp
    | skipped =>
      have hstep : scrapeLinks env name variant (.skipped :: rest) st
          = scrapeLinks env name variant rest (bump st) := by
        simp [scrapeLinks, hr]
      obtain ⟨i1, i2, i3, i4⟩ := ih (bump st)
      refine ⟨by rw [hstep]; exact i1, ?_, ?_, ?_⟩
      · intro s
        rw [hstep, i2 s, countOf_bump]
      · intro a b
        rw [hstep, i3 a b, countOf_bump]
      · rw [hstep, i4, countOf_bump]

theorem scrape_all_pages_spec (env : WEnv) (name variant : String) (raises : Bool)
    (hrun : ∀ k, env.running k = true) :
    ∀ (pages : List (List LinkFate)) (st : WSt) (acc : ℕ),
      (scrape_all_pages env name variant raises pages st acc).2.1 = acc + countedItems pages
      ∧ (scrape_all_pages env name variant raises pages st acc).2.2
          = scrapeEscapes pages raises
      ∧ (∀ s, countOf (isSummaryFor s)
            (scrape_all_pages env name variant raises pages st acc).1.events
          = countOf (isSummaryFor s) st.events)
      ∧ (∀ a b, countOf (isSearchFor a b)
            (scrape_all_pages env name variant raises pages st acc).1.events
          = countOf (isSearchFor a b) st.events)
      ∧ countOf isAcquireEv (scrape_all_pages env name variant raises pages st acc).1.events
          = countOf isAcquireEv st.events := by
  intro pages
  induction pages with
  | nil =>
    intro st acc
    have hr := hrun st.clock
    refine ⟨?_, ?_, fun s => ?_, fun a b => ?_, ?_⟩ <;>
      simp [scrape_all_pages, scrapeEscapes, countedItems, hr, countOf_bump]
  | cons links rest ih =>
    intro st acc
    have hr := hrun st.clock
    obtain ⟨hlt, hl2, hl3, hl4⟩ := scrapeLinks_spec env name variant hrun links (bump st)
    by_cases hemp : links.isEmpty
    · have hstep : scrape_all_pages env name variant raises (links :: rest) st acc
          = (bump st, acc, false) := by
        simp [scrape_all_pages, hr, hemp]
      rw [hstep]
      refine ⟨by simp [countedItems, hemp], by simp [scrapeEscapes, hemp], fun s => rfl,
        fun a b => rfl, rfl⟩
    · by_cases hbr : (rest.isEmpty && !raises) = true
      · rw [Bool.and_eq_true, Bool.not_eq_true'] at hbr
        have hrest : rest = [] := List.isEmpty_iff.mp hbr.1
        have hstep : scrape_all_pages env name variant raises (links :: rest) st acc
            = ((scrapeLinks env name variant links (bump st)).1,
                acc + links.length, false) := by
          simp [scrape_all_pages, hr, hemp, hlt, hbr.1, hbr.2]
        rw [hstep]
        refine ⟨?_, ?_, ?_, ?_, ?_⟩
        · simp [countedItems, hemp, hrest]
        · simp [scrapeEscapes, hemp, hrest, hbr.2]
        · intro s
          rw [hl2 s, countOf_bump]
        · intro a b
          rw [hl3 a b, countOf_bump]
        · rw [hl4, countOf_bump]
      · have hstep : scrape_all_pages env name variant raises (links :: rest) st acc
            = scrape_all_pages env name variant raises rest
                (scrapeLinks env name variant links (bump st)).1 (acc + links.length) := by
          simp [scrape_all_pages, hr, hemp, hlt, hbr]
        obtain ⟨h1, h2, h3, h4, h5⟩ :=
          ih (scrapeLinks env name variant links (bump st)).1 (acc + links.length)
        rw [hstep]
        refine ⟨?_, ?_, ?_, ?_, ?_⟩
        · rw [h1]
          simp [countedItems, hemp]
          omega
        · rw [h2]
          simp [scrapeEscapes, hemp]
        · intro s
          rw [h3 s, hl2 s, countOf_bump]
        · intro a b
          rw [h4 a b, hl3 a b, countOf_bump]
        · rw [h5, hl4, countOf_bump]

@[simp] theorem isScrapedFor_setupDriver (s : String) : isScrapedFor s .setupDriver = false := rfl

@[simp] theorem isScrapedFor_navigate (s : String) : isScrapedFor s .navigate = false := rfl

@[simp] theorem isScrapedFor_logFileError (s : String) : isScrapedFor s .logFileError = false := rfl

@[simp] theorem isScrapedFor_quitDriver (s : String) : isScrapedFor s .quitDriver = false := rfl

@[simp] theorem isScrapedFor_finished (s : String) : isScrapedFor s .finished = false := rfl

@[simp] theorem isSummaryFor_setupDriver (s : String) : isSummaryFor s .setupDriver = false := rfl

@[simp] theorem isSummaryFor_navigate (s : String) : isSummaryFor s .navigate = false := rfl

@[simp] theorem isSummaryFor_logFileError (s : String) : isSummaryFor s .logFileError = false := rfl

@[simp] theorem isSummaryFor_quitDriver (s : String) : isSummaryFor s .quitDriver = false := rfl

@[simp] theorem isSummaryFor_finished (s : String) : isSummaryFor s .finished = false := rfl

theorem attemptLoop_spec (env : WEnv) (ni vi : ℕ) (name variant : String)
    (hrun : ∀ k, env.running k = true) :
    ∀ (fuel : ℕ) (ai : ℕ) (st : WSt),
      (∃ j, j < fuel ∧ (env.outcome ni vi (ai + j)).exits = true) →
      (attemptLoop env ni vi name variant fuel ai st).2
          = decide (0 < firstExitItems env ni vi fuel ai)
      ∧ (∀ s, countOf (isSummaryFor s) (attemptLoop env ni vi name variant fuel ai st).1.events
          = countOf (isSummaryFor s) st.events) := by
  intro fuel
  induction fuel with
  | zero =>
    intro ai st h
    obtain ⟨j, hj, -⟩ := h
    exact absurd hj (Nat.not_lt_zero j)
  | succ fuel ih =>
    intro ai st h
    have hr := hrun st.clock
    cases houtcome : env.outcome ni vi ai with
    | alert msg =>
      by_cases hca : isCaptchaAlert msg = true
      · have hstep : attemptLoop env ni vi name variant (fuel + 1) ai st
            = attemptLoop env ni vi name variant fuel (ai + 1)
                (acquire env (emit (.search ni vi ai variant st.cap) (bump st))) := by
          simp [attemptLoop, hr, houtcome, hca]
        have hfei : firstExitItems env ni vi (fuel + 1) ai
            = firstExitItems env ni vi fuel (ai + 1) := by
          simp [firstExitItems, houtcome, hca]
        obtain ⟨j, hj, hex⟩ := h
        have hj0 : j ≠ 0 := by
          intro hj0
          rw [hj0, Nat.add_zero, houtcome] at hex
          simp [Outcome.exits, hca] at hex
        have hterm2 : ∃ j2, j2 < fuel ∧ (env.outcome ni vi (ai + 1 + j2)).exits = true := by
          refine ⟨j - 1, by omega, ?_⟩
          have heq : ai + 1 + (j - 1) = ai + j := by omega
          rw [heq]
          exact hex
        obtain ⟨h1, h2⟩ :=
          ih (ai + 1) (acquire env (emit (.search ni vi ai variant st.cap) (bump st))) hterm2
        refine ⟨by rw [hstep, hfei]; exact h1, ?_⟩
        intro s
        rw [hstep, h2 s, countOf_acquire, countOf_emit, countOf_bump]
        simp
      · have hstep1 : (attemptLoop env ni vi name variant (fuel + 1) ai st).1
            = emit (.search ni vi ai variant st.cap) (bump st) := by
          simp [attemptLoop, hr, houtcome, hca]
        have hstep2 : (attemptLoop env ni vi name variant (fuel + 1) ai st).2 = false := by
          simp [attemptLoop, hr, houtcome, hca]
        have hfei : firstExitItems env ni vi (fuel + 1) ai = 0 := by
          simp [firstExitItems, houtcome, hca]
        refine ⟨?_, ?_⟩
        · rw [hstep2, hfei]
          simp
        · intro s
          rw [hstep1, countOf_emit, countOf_bump]
          simp
    | noRecords =>
      have hstep1 : (attemptLoop env ni vi name variant (fuel + 1) ai st).1
          = emit (.search ni vi ai variant st.cap) (bump st) := by
        simp [attemptLoop, hr, houtcome]
      have hstep2 : (attemptLoop env ni vi name variant (fuel + 1) ai st).2 = false := by
        simp [attemptLoop, hr, houtcome]
      have hfei : firstExitItems env ni vi (fuel + 1) ai = 0 := by
        simp [firstExitItems, houtcome]
      refine ⟨?_, ?_⟩
      · rw [hstep2, hfei]
        simp
      · intro s
        rw [hstep1, countOf_emit, countOf_bump]
        simp
    | results pages raises =>
      obtain ⟨s1, s2, s3, -, -⟩ :=
        scrape_all_pages_spec env name variant raises hrun pages
          (emit (.search ni vi ai variant st.cap) (bump st)) 0
      by_cases hesc : scrapeEscapes pages raises = true
      · have hstep : attemptLoop env ni vi name variant (fuel + 1) ai st
            = attemptLoop env ni vi name variant fuel (ai + 1)
                (acquire env (scrape_all_pages env name variant raises pages
                  (emit (.search ni vi ai variant st.cap) (bump st)) 0).1) := by
          simp [attemptLoop, hr, houtcome, s2, hesc]
        have hfei : firstExitItems env ni vi (fuel + 1) ai
            = firstExitItems env ni vi fuel (ai + 1) := by
          simp [firstExitItems, houtcome, hesc]
        obtain ⟨j, hj, hex⟩ := h
        have hj0 : j ≠ 0 := by
          intro hj0
          rw [hj0, Nat.add_zero, houtcome] at hex
          simp [Outcome.exits, hesc] at hex
        have hterm2 : ∃ j2, j2 < fuel ∧ (env.outcome ni vi (ai + 1 + j2)).exits = true := by
          refine ⟨j - 1, by omega, ?_⟩
          have heq : ai + 1 + (j - 1) = ai + j := by omega
          rw [heq]
          exact hex
        obtain ⟨h1, h2⟩ :=
          ih (ai + 1) (acquire env (scrape_all_pages env name variant raises pages
            (emit (.search ni vi ai variant st.cap) (bump st)) 0).1) hterm2
        refine ⟨by rw [hstep, hfei]; exact h1, ?_⟩
        intro s
        rw [hstep, h2 s, countOf_acquire, s3 s, countOf_emit, countOf_bump]
        simp
      · have hstep1 : (attemptLoop env ni vi name variant (fuel + 1) ai st).1
            = (scrape_all_pages env name variant raises pages
                (emit (.search ni vi ai variant st.cap) (bump st)) 0).1 := by
          simp [attemptLoop, hr, houtcome, s2, hesc]
        have hstep2 : (attemptLoop env ni vi name variant (fuel + 1) ai st).2
            = decide (0 < (scrape_all_pages env name variant raises pages
                (emit (.search ni vi ai variant st.cap) (bump st)) 0).2.1) := by
          simp [attemptLoop, hr, houtcome, s2, hesc]
        have hfei : firstExitItems env ni vi (fuel + 1) ai = countedItems pages := by
          simp [firstExitItems, houtcome, hesc]
        refine ⟨?_, ?_⟩
        · rw [hstep2, s1, hfei]
          simp
        · intro s
          rw [hstep1, s3 s, countOf_emit, countOf_bump]
          simp
    | netError =>
      have hstep : attemptLoop env ni vi name variant (fuel + 1) ai st
          = attemptLoop env ni vi name variant fuel (ai + 1)
              (acquire env (emit (.search ni vi ai variant st.cap) (bump st))) := by
        simp [attemptLoop, hr, houtcome]
      have hfei : firstExitItems env ni vi (fuel + 1) ai
          = firstExitItems env ni vi fuel (ai + 1) := by
        simp [firstExitItems, houtcome]
      obtain ⟨j, hj, hex⟩ := h
      have hj0 : j ≠ 0 := by
        intro hj0
        rw [hj0, Nat.add_zero, houtcome] at hex
        simp [Outcome.exits] at hex
      have hterm2 : ∃ j2, j2 < fuel ∧ (env.outcome ni vi (ai + 1 + j2)).exits = true := by
        refine ⟨j - 1, by omega, ?_⟩
        have heq : ai + 1 + (j - 1) = ai + j := by omega
        rw [heq]
        exact hex
      obtain ⟨h1, h2⟩ :=
        ih (ai + 1) (acquire env (emit (.search ni vi ai variant st.cap) (bump st))) hterm2
      refine ⟨by rw [hstep, hfei]; exact h1, ?_⟩
      intro s
      rw [hstep, h2 s, countOf_acquire, countOf_emit, countOf_bump]
      simp

theorem or_decide_pos (b : Bool) (n m : ℕ) :
    ((b || decide (0 < n)) || decide (0 < m)) = (b || decide (0 < n + m)) := by
  cases b
  · by_cases h1 : 0 < n <;> by_cases h2 : 0 < m <;> simp [h1, h2]
  · simp

theorem variantLoop_spec (env : WEnv) (fuel ni : ℕ) (name : String)
    (hrun : ∀ k, env.running k = true)
    (hterm : ∀ vi2, ∃ j, j < fuel ∧ (env.outcome ni vi2 j).exits = true) :
    ∀ (vs : List String) (vi : ℕ) (st : WSt) (found : Bool),
      (variantLoop env fuel ni name vs vi st found).2
          = (found || decide (0 < variantsItems env fuel ni vs.length vi))
      ∧ (∀ s, countOf (isSummaryFor s) (variantLoop env fuel ni name vs vi st found).1.events
          = countOf (isSummaryFor s) st.events) := by
  intro vs
  induction vs with
  | nil =>
    intro vi st found
    refine ⟨?_, ?_⟩
    · simp [variantLoop, variantsItems]
    · intro s
      simp [variantLoop]
  | cons v vs ihv =>
    intro vi st found
    have hr := hrun st.clock
    have hterm0 : ∃ j, j < fuel ∧ (env.outcome ni vi (0 + j)).exits = true := by
      obtain ⟨j, hj, hex⟩ := hterm vi
      exact ⟨j, hj, by rwa [Nat.zero_add]⟩
    obtain ⟨a1, a2⟩ := attemptLoop_spec env ni vi name v hrun fuel 0 (bump st) hterm0
    have hstep : variantLoop env fuel ni name (v :: vs) vi st found
        = variantLoop env fuel ni name vs (vi + 1)
            (attemptLoop env ni vi name v fuel 0 (bump st)).1
            (found || (attemptLoop env ni vi name v fuel 0 (bump st)).2) := by
      simp [variantLoop, hr]
    obtain ⟨b1, b2⟩ := ihv (vi + 1)
        (attemptLoop env ni vi name v fuel 0 (bump st)).1
        (found || (attemptLoop env ni vi name v fuel 0 (bump st)).2)
    have hvi : variantsItems env fuel ni (v :: vs).length vi
        = firstExitItems env ni vi fuel 0 + variantsItems env fuel ni vs.length (vi + 1) := by
      simp [variantsItems]
    refine ⟨?_, ?_⟩
    · rw [hstep, b1, a1, hvi, or_decide_pos]
    · intro s
      rw [hstep, b2 s, a2 s, countOf_bump]

theorem nameLoop_spec (env : WEnv) (fuel : ℕ)
    (hrun : ∀ k, env.running k = true)
    (hterm : ∀ ni vi, ∃ j, j < fuel ∧ (env.outcome ni vi j).exits = true) :
    ∀ (names : List String) (ni : ℕ) (st : WSt),
      (∀ s, s ∉ names →
        countOf (isSummaryFor s) (nameLoop env fuel names ni st).events
            = countOf (isSummaryFor s) st.events)
      ∧ (names.Nodup →
          ∀ (i : ℕ) (hi : i < names.length),
            countOf (isSummaryFor (names.get ⟨i, hi⟩)) (nameLoop env fuel names ni st).events
              = countOf (isSummaryFor (names.get ⟨i, hi⟩)) st.events
                + (if 0 < variantsItems env fuel (ni + i)
                      (variantsOf env.enum (names.get ⟨i, hi⟩)).length 0
                   then 0 else 1)) := by
  intro names
  induction names with
  | nil =>
    intro ni st
    exact ⟨fun s _ => rfl, fun _ i hi => absurd hi (Nat.not_lt_zero i)⟩
  | cons name rest ihn =>
    intro ni st
    have hr := hrun st.clock
    obtain ⟨v1, v2⟩ := variantLoop_spec env fuel ni name hrun (hterm ni)
        (analyze_name env.enum name).1 0 (bump st) false
    have hfound : (variantLoop env fuel ni name (analyze_name env.enum name).1 0
        (bump st) false).2
        = decide (0 < variantsItems env fuel ni
            (variantsOf env.enum name).length 0) := by
      rw [v1, Bool.false_or, analyze_name_fst]
    have hstep : nameLoop env fuel (name :: rest) ni st
        = nameLoop env fuel rest (ni + 1)
            (if (variantLoop env fuel ni name (analyze_name env.enum name).1 0
                  (bump st) false).2
             then (variantLoop env fuel ni name (analyze_name env.enum name).1 0
                  (bump st) false).1
             else emit (.record (summaryRow name))
                  (variantLoop env fuel ni name (analyze_name env.enum name).1 0
                    (bump st) false).1) := by
      simp [nameLoop, hr]
    -- the state entering the tail loop, with its counts relative to st
    by_cases hc : 0 < variantsItems env fuel ni (variantsOf env.enum name).length 0
    · have hcb : (variantLoop env fuel ni name (analyze_name env.enum name).1 0
          (bump st) false).2 = true := by
        rw [hfound]
        simpa using hc
      rw [hcb, if_pos rfl] at hstep
      obtain ⟨part1, part2⟩ := ihn (ni + 1)
          (variantLoop env fuel ni name (analyze_name env.enum name).1 0 (bump st) false).1
      constructor
      · intro s hs
        have hsrest : s ∉ rest := fun hcon => hs (List.mem_cons_of_mem name hcon)
        rw [hstep, part1 s hsrest, v2 s, countOf_bump]
      · intro hnodup i hi
        rw [List.nodup_cons] at hnodup
        cases i with
        | zero =>
          have hget : (name :: rest).get ⟨0, hi⟩ = name := rfl
          rw [hstep, hget, part1 name hnodup.1, v2 name, countOf_bump, Nat.add_zero,
            if_pos hc]
          omega
        | succ j =>
          have hj : j < rest.length := by simpa using hi
          have hget : (name :: rest).get ⟨j + 1, hi⟩ = rest.get ⟨j, hj⟩ := rfl
          rw [hstep, hget, part2 hnodup.2 j hj, v2 _, countOf_bump,
            show ni + (j + 1) = ni + 1 + j from by omega]
    · have hcb : (variantLoop env fuel ni name (analyze_name env.enum name).1 0
          (bump st) false).2 = false := by
        rw [hfound]
        simpa using hc
      rw [hcb, if_neg (by simp)] at hstep
      obtain ⟨part1, part2⟩ := ihn (ni + 1)
          (emit (.record (summaryRow name))
            (variantLoop env fuel ni name (analyze_name env.enum name).1 0 (bump st) false).1)
      constructor
      · intro s hs
        have hsname : s ≠ name := fun hcon => hs (hcon ▸ List.mem_cons_self name rest)
        have hsrest : s ∉ rest := fun hcon => hs (List.mem_cons_of_mem name hcon)
        have hbeq : (name == s) = false := beq_eq_false_iff_ne.mpr (fun hcon => hsname hcon.symm)
        rw [hstep, part1 s hsrest, countOf_emit, v2 s, countOf_bump]
        simp [hbeq]
      · intro hnodup i hi
        rw [List.nodup_cons] at hnodup
        cases i with
        | zero =>
          have hget : (name :: rest).get ⟨0, hi⟩ = name := rfl
          rw [hstep, hget, part1 name hnodup.1, countOf_emit, v2 name, countOf_bump,
            Nat.add_zero, if_neg hc]
          simp
        | succ j =>
          have hj : j < rest.length := by simpa using hi
          have hget : (name :: rest).get ⟨j + 1, hi⟩ = rest.get ⟨j, hj⟩ := rfl
          have hmem : rest.get ⟨j, hj⟩ ∈ rest := List.get_mem rest j hj
          have hbeq : (name == rest.get ⟨j, hj⟩) = false :=
            beq_eq_false_iff_ne.mpr (fun hcon => hnodup.1 (hcon ▸ hmem))
          rw [hstep, hget, part2 hnodup.2 j hj, countOf_emit, v2 _, countOf_bump,
            show ni + (j + 1) = ni + 1 + j from by omega, isSummaryFor_summaryRow, hbeq]
          simp

/-! ## Claim C1: the synthetic "no conflict" summary record -/

set_option maxRecDepth 20000 in
/-- Claim C1 counterexample: in an uncancelled run, the first variant's
result page counts one link (`items = 1 > 0`, so `found_any_conflict` is
set) but the link's processing is silently skipped, so no scraped record is
ever emitted for the name — yet the name receives no summary record either.
"Exactly one summary record iff no variant produced a conflict record" is
therefore false of the program: the summary is keyed on counted links, not
on emitted records. -/
theorem C1_counterexample :
    "اب" ∈ parsedNames ["اب"]
    ∧ (∀ k, envC1.running k = true)
    ∧ countOf (isScrapedFor "اب") (runWorker envC1 1).events = 0
    ∧ countOf (isSummaryFor "اب") (runWorker envC1 1).events = 0
    ∧ ¬ ((countOf (isSummaryFor "اب") (runWorker envC1 1).events = 1)
          ↔ (countOf (isScrapedFor "اب") (runWorker envC1 1).events = 0)) := by
  exact ⟨by decide, fun k => rfl, by decide, by decide, by decide⟩

/-- Claim C1 (amended): in a run that is never cancelled and in which every
variant's retry loop terminates, the name at position `i` of the
(duplicate-free) parsed input list receives exactly one synthetic
"no conflict" summary record iff the total counted result-link items over
its variants (excluding attempts whose scrape raised, whose counts the
`except` branch discards) is zero.  The summary is keyed on counted links
(`items > 0`), not on emitted records: a counted link whose processing is
silently skipped suppresses the summary without any record being emitted. -/
theorem C1_amended_thm (env : WEnv) (fuel : ℕ) (ls : List String)
    (hfile : env.fileNames = some ls)
    (hrun : ∀ k, env.running k = true)
    (hterm : ∀ ni vi, ∃ j, j < fuel ∧ (env.outcome ni vi j).exits = true)
    (hnodup : (parsedNames ls).Nodup)
    (i : ℕ) (hi : i < (parsedNames ls).length) :
    countOf (isSummaryFor ((parsedNames ls).get ⟨i, hi⟩)) (runWorker env fuel).events = 1
      ↔ variantsItems env fuel i
          (variantsOf env.enum ((parsedNames ls).get ⟨i, hi⟩)).length 0 = 0 := by
  have hrw : runWorker env fuel
      = emit .finished (emit .quitDriver
          (nameLoop env fuel (parsedNames ls) 0
            (acquire env (emit .navigate (emit .setupDriver ⟨0, 0, "", []⟩))))) := by
    unfold runWorker
    rw [hfile]
  obtain ⟨-, part2⟩ := nameLoop_spec env fuel hrun hterm (parsedNames ls) 0
      (acquire env (emit .navigate (emit .setupDriver ⟨0, 0, "", []⟩)))
  have hq := part2 hnodup i hi
  rw [Nat.zero_add] at hq
  have hinit : countOf (isSummaryFor ((parsedNames ls).get ⟨i, hi⟩))
      (acquire env (emit .navigate (emit .setupDriver ⟨0, 0, "", []⟩))).events = 0 := by
    rw [countOf_acquire, countOf_emit, countOf_emit]
    simp [countOf]
  rw [hrw, countOf_emit, countOf_emit, hq, hinit]
  simp only [isSummaryFor_finished, isSummaryFor_quitDriver, if_false, Bool.false_eq_true]
  by_cases hpos : 0 < variantsItems env fuel i
      (variantsOf env.enum ((parsedNames ls).get ⟨i, hi⟩)).length 0
  · rw [if_pos hpos]
    constructor
    · intro hcon
      omega
    · intro hcon
      omega
  · rw [if_neg hpos]
    constructor
    · intro _
      omega
    · intro _
      omega

set_option maxRecDepth 20000 in
/-- Witness for C1's amended statement: a one-name uncancelled clean run. -/
theorem C1_witness :
    (parsedNames ["اب"]).Nodup
    ∧ (countOf (isSummaryFor ((parsedNames ["اب"]).get ⟨0, by decide⟩))
          (runWorker envOk 1).events = 1
        ↔ variantsItems envOk 1 0
            (variantsOf envOk.enum ((parsedNames ["اب"]).get ⟨0, by decide⟩)).length 0
          = 0) :=
  ⟨by decide,
   C1_amended_thm envOk 1 ["اب"] rfl (fun _ => rfl)
     (fun _ _ => ⟨0, Nat.zero_lt_one, rfl⟩) (by decide) 0 (by decide)⟩

@[simp] theorem isSearchEv_setupDriver : isSearchEv .setupDriver = false := rfl

@[simp] theorem isSearchEv_navigate : isSearchEv .navigate = false := rfl

@[simp] theorem isSearchEv_logFileError : isSearchEv .logFileError = false := rfl

@[simp] theorem isSearchEv_acquireTok (t : ℕ) : isSearchEv (.acquireTok t) = false := rfl

@[simp] theorem isSearchEv_record (r : Row) : isSearchEv (.record r) = false := rfl

@[simp] theorem isSearchEv_quitDriver : isSearchEv .quitDriver = false := rfl

@[simp] theorem isSearchEv_finished : isSearchEv .finished = false := rfl

@[simp] theorem isScrapedRec_setupDriver : isScrapedRec .setupDriver = false := rfl

@[simp] theorem isScrapedRec_navigate : isScrapedRec .navigate = false := rfl

@[simp] theorem isScrapedRec_logFileError : isScrapedRec .logFileError = false := rfl

@[simp] theorem isScrapedRec_acquireTok (t : ℕ) : isScrapedRec (.acquireTok t) = false := rfl

@[simp] theorem isScrapedRec_search (a b c : ℕ) (v cap : String) :
    isScrapedRec (.search a b c v cap) = false := rfl

@[simp] theorem isScrapedRec_quitDriver : isScrapedRec .quitDriver = false := rfl

@[simp] theorem isScrapedRec_finished : isScrapedRec .finished = false := rfl

/-! ## Claim C2: cancellation -/

theorem mem_emit {e : Ev} {st : WSt} {p : ℕ × Ev} :
    p ∈ (emit e st).events ↔ p ∈ st.events ∨ p = (st.clock, e) := by
  rw [show (emit e st).events = st.events ++ [(st.clock, e)] from rfl]
  simp

theorem mem_acquire {env : WEnv} {st : WSt} {p : ℕ × Ev} :
    p ∈ (acquire env st).events ↔ p ∈ st.events ∨ p = (st.clock, .acquireTok st.tok) := by
  rw [show (acquire env st).events = st.events ++ [(st.clock, .acquireTok st.tok)] from rfl]
  simp

theorem goodEv_acquireTok (env : WEnv) (k t : ℕ) : GoodEv env (k, .acquireTok t) := by
  intro hk
  rcases hk with h | h <;> simp at h

theorem goodEv_record_summary (env : WEnv) (k : ℕ) (name : String) :
    GoodEv env (k, .record (summaryRow name)) := by
  intro hk
  rcases hk with h | h <;> simp at h

theorem scrapeLinks_good (env : WEnv) (name variant : String) :
    ∀ (links : List LinkFate) (st : WSt) (p : ℕ × Ev),
      p ∈ (scrapeLinks env name variant links st).1.events →
      p ∈ st.events ∨ GoodEv env p := by
  intro links
  induction links with
  | nil =>
    intro st p hp
    exact Or.inl hp
  | cons fate rest ih =>
    intro st p hp
    by_cases hr : env.running st.clock = true
    · cases fate with
      | row ok =>
        have hstep : (scrapeLinks env name variant (.row ok :: rest) st).1
            = (scrapeLinks env name variant rest
                (emit (.record (linkRow name variant ok)) (bump st))).1 := by
          simp [scrapeLinks, hr]
        rw [hstep] at hp
        rcases ih (emit (.record (linkRow name variant ok)) (bump st)) p hp with hmem | hgood
        · rcases mem_emit.mp hmem with h1 | h2
          · exact Or.inl h1
          · subst h2
            refine Or.inr (fun _ => ⟨Nat.succ_pos st.clock, ?_⟩)
            simpa using hr
        · exact Or.inr hgood
      | skipped =>
        have hstep : (scrapeLinks env name variant (.skipped :: rest) st).1
            = (scrapeLinks env name variant rest (bump st)).1 := by
          simp [scrapeLinks, hr]
        rw [hstep] at hp
        rcases ih (bump st) p hp with hmem | hgood
        · exact Or.inl hmem
        · exact Or.inr hgood
    · have hstep : (scrapeLinks env name variant (fate :: rest) st).1 = bump st := by
        cases fate <;> simp [scrapeLinks, hr]
      rw [hstep] at hp
      exact Or.inl hp

theorem scrape_all_pages_good (env : WEnv) (name variant : String) (raises : Bool) :
    ∀ (pages : List (List LinkFate)) (st : WSt) (acc : ℕ) (p : ℕ × Ev),
      p ∈ (scrape_all_pages env name variant raises pages st acc).1.events →
      p ∈ st.events ∨ GoodEv env p := by
  intro pages
  induction pages with
  | nil =>
    intro st acc p hp
    exact Or.inl hp
  | cons links rest ih =>
    intro st acc p hp
    by_cases hr : env.running st.clock = true
    · by_cases hemp : links.isEmpty
      · rw [show (scrape_all_pages env name variant raises (links :: rest) st acc).1
            = bump st from by simp [scrape_all_pages, hr, hemp]] at hp
        exact Or.inl hp
      · by_cases hdone : (scrapeLinks env name variant links (bump st)).2 = true
        · by_cases hbr : (rest.isEmpty && !raises) = true
          · have hstep : (scrape_all_pages env name variant raises (links :: rest) st acc).1
                = (scrapeLinks env name variant links (bump st)).1 := by
              simp [scrape_all_pages, hr, hemp, hdone, hbr]
            rw [hstep] at hp
            exact scrapeLinks_good env name variant links (bump st) p hp
          · have hstep : (scrape_all_pages env name variant raises (links :: rest) st acc).1
                = (scrape_all_pages env name variant raises rest
                    (scrapeLinks env name variant links (bump st)).1
                    (acc + links.length)).1 := by
              simp [scrape_all_pages, hr, hemp, hdone, hbr]
            rw [hstep] at hp
            rcases ih _ _ p hp with hmem | hgood
            · exact scrapeLinks_good env name variant links (bump st) p hmem
            · exact Or.inr hgood
        · have hstep : (scrape_all_pages env name variant raises (links :: rest) st acc).1
              = (scrapeLinks env name variant links (bump st)).1 := by
            simp [scrape_all_pages, hr, hemp, hdone]
          rw [hstep] at hp
          exact scrapeLinks_good env name variant links (bump st) p hp
    · rw [show (scrape_all_pages env name variant raises (links :: rest) st acc).1
          = bump st from by simp [scrape_all_pages, hr]] at hp
      exact Or.inl hp

theorem attemptLoop_good (env : WEnv) (ni vi : ℕ) (name variant : String) :
    ∀ (fuel ai : ℕ) (st : WSt) (p : ℕ × Ev),
      p ∈ (attemptLoop env ni vi name variant fuel ai st).1.events →
      p ∈ st.events ∨ GoodEv env p := by
  intro fuel
  induction fuel with
  | zero =>
    intro ai st p hp
    exact Or.inl hp
  | succ fuel ih =>
    intro ai st p hp
    by_cases hr : env.running st.clock = true
    · have hst1 : ∀ q : ℕ × Ev,
          q ∈ (emit (.search ni vi ai variant st.cap) (bump st)).events →
          q ∈ st.events ∨ GoodEv env q := by
        intro q hq
        rcases mem_emit.mp hq with h1 | h2
        · exact Or.inl h1
        · subst h2
          refine Or.inr (fun _ => ⟨Nat.succ_pos st.clock, ?_⟩)
          simpa using hr
      have hacq : ∀ q : ℕ × Ev,
          q ∈ (acquire env (emit (.search ni vi ai variant st.cap) (bump st))).events →
          q ∈ st.events ∨ GoodEv env q := by
        intro q hq
        rcases mem_acquire.mp hq with h1 | h2
        · exact hst1 q h1
        · subst h2
          exact Or.inr (goodEv_acquireTok env _ _)
      cases houtcome : env.outcome ni vi ai with
      | alert msg =>
        by_cases hca : isCaptchaAlert msg = true
        · rw [show (attemptLoop env ni vi name variant (fuel + 1) ai st).1
              = (attemptLoop env ni vi name variant fuel (ai + 1)
                  (acquire env (emit (.search ni vi ai variant st.cap) (bump st)))).1 from
              by simp [attemptLoop, hr, houtcome, hca]] at hp
          rcases ih (ai + 1) _ p hp with hmem | hgood
          · exact hacq p hmem
          · exact Or.inr hgood
        · rw [show (attemptLoop env ni vi name variant (fuel + 1) ai st).1
              = emit (.search ni vi ai variant st.cap) (bump st) from
              by simp [attemptLoop, hr, houtcome, hca]] at hp
          exact hst1 p hp
      | noRecords =>
        rw [show (attemptLoop env ni vi name variant (fuel + 1) ai st).1
            = emit (.search ni vi ai variant st.cap) (bump st) from
            by simp [attemptLoop, hr, houtcome]] at hp
        exact hst1 p hp
      | results pages raises =>
        by_cases hesc : (scrape_all_pages env name variant raises pages
            (emit (.search ni vi ai variant st.cap) (bump st)) 0).2.2 = true
        · rw [show (attemptLoop env ni vi name variant (fuel + 1) ai st).1
              = (attemptLoop env ni vi name variant fuel (ai + 1)
                  (acquire env (scrape_all_pages env name variant raises pages
                    (emit (.search ni vi ai variant st.cap) (bump st)) 0).1)).1 from
              by simp [attemptLoop, hr, houtcome, hesc]] at hp
          rcases ih (ai + 1) _ p hp with hmem | hgood
          · rcases mem_acquire.mp hmem with h1 | h2
            · rcases scrape_all_pages_good env name variant raises pages
                  (emit (.search ni vi ai variant st.cap) (bump st)) 0 p h1 with hmem2 | hgood2
              · exact hst1 p hmem2
              · exact Or.inr hgood2
            · subst h2
              exact Or.inr (goodEv_acquireTok env _ _)
          · exact Or.inr hgood
        · rw [show (attemptLoop env ni vi name variant (fuel + 1) ai st).1
              = (scrape_all_pages env name variant raises pages
                  (emit (.search ni vi ai variant st.cap) (bump st)) 0).1 from
              by simp [attemptLoop, hr, houtcome, hesc]] at hp
          rcases scrape_all_pages_good env name variant raises pages
              (emit (.search ni vi ai variant st.cap) (bump st)) 0 p hp with hmem | hgood
          · exact hst1 p hmem
          · exact Or.inr hgood
      | netError =>
        rw [show (attemptLoop env ni vi name variant (fuel + 1) ai st).1
            = (attemptLoop env ni vi name variant fuel (ai + 1)
                (acquire env (emit (.search ni vi ai variant st.cap) (bump st)))).1 from
            by simp [attemptLoop, hr, houtcome]] at hp
        rcases ih (ai + 1) _ p hp with hmem | hgood
        · exact hacq p hmem
        · exact Or.inr hgood
    · rw [show (attemptLoop env ni vi name variant (fuel + 1) ai st).1 = bump st from
          by simp [attemptLoop, hr]] at hp
      exact Or.inl hp

theorem variantLoop_good (env : WEnv) (fuel ni : ℕ) (name : String) :
    ∀ (vs : List String) (vi : ℕ) (st : WSt) (found : Bool) (p : ℕ × Ev),
      p ∈ (variantLoop env fuel ni name vs vi st found).1.events →
      p ∈ st.events ∨ GoodEv env p := by
  intro vs
  induction vs with
  | nil =>
    intro vi st found p hp
    exact Or.inl hp
  | cons v vs ih =>
    intro vi st found p hp
    by_cases hr : env.running st.clock = true
    · rw [show (variantLoop env fuel ni name (v :: vs) vi st found).1
          = (variantLoop env fuel ni name vs (vi + 1)
              (attemptLoop env ni vi name v fuel 0 (bump st)).1
              (found || (attemptLoop env ni vi name v fuel 0 (bump st)).2)).1 from
          by simp [variantLoop, hr]] at hp
      rcases ih (vi + 1) _ _ p hp with hmem | hgood
      · exact attemptLoop_good env ni vi name v fuel 0 (bump st) p hmem
      · exact Or.inr hgood
    · rw [show (variantLoop env fuel ni name (v :: vs) vi st found).1 = bump st from
          by simp [variantLoop, hr]] at hp
      exact Or.inl hp

theorem nameLoop_good (env : WEnv) (fuel : ℕ) :
    ∀ (names : List String) (ni : ℕ) (st : WSt) (p : ℕ × Ev),
      p ∈ (nameLoop env fuel names ni st).events →
      p ∈ st.events ∨ GoodEv env p := by
  intro names
  induction names with
  | nil =>
    intro ni st p hp
    exact Or.inl hp
  | cons name rest ih =>
    intro ni st p hp
    by_cases hr : env.running st.clock = true
    · rw [show nameLoop env fuel (name :: rest) ni st
          = nameLoop env fuel rest (ni + 1)
              (if (variantLoop env fuel ni name (analyze_name env.enum name).1 0
                    (bump st) false).2
               then (variantLoop env fuel ni name (analyze_name env.enum name).1 0
                    (bump st) false).1
               else emit (.record (summaryRow name))
                    (variantLoop env fuel ni name (analyze_name env.enum name).1 0
                      (bump st) false).1) from by simp [nameLoop, hr]] at hp
      rcases ih (ni + 1) _ p hp with hmem | hgood
      · by_cases hf : (variantLoop env fuel ni name (analyze_name env.enum name).1 0
            (bump st) false).2 = true
        · rw [if_pos hf] at hmem
          exact variantLoop_good env fuel ni name _ 0 (bump st) false p hmem
        · rw [if_neg hf] at hmem
          rcases mem_emit.mp hmem with h1 | h2
          · exact variantLoop_good env fuel ni name _ 0 (bump st) false p h1
          · subst h2
            exact Or.inr (goodEv_record_summary env _ name)
      · exact Or.inr hgood
    · rw [show nameLoop env fuel (name :: rest) ni st = bump st from
          by simp [nameLoop, hr]] at hp
      exact Or.inl hp

/-- Claim C2 counterexample: in a one-name run whose cancellation flag goes
down at the third flag read — before any search attempt was ever submitted —
the run still emits the synthetic clean summary record for the name in
progress after cancellation; so "no further records of any kind are emitted
for the name in progress" fails. -/
theorem C2_counterexample :
    envC2.running 2 = false
    ∧ (runWorker envC2 1).events.filter (fun p => isSearchEv p.2) = []
    ∧ (runWorker envC2 1).events.filter (fun p => isRecordEv p.2)
        = [(4, .record (summaryRow "اب"))] := by
  refine ⟨rfl, ?_, ?_⟩ <;> decide

/-- Claim C2 (amended): every search attempt and every scraped record in any
run's trace is stamped immediately after a read of `is_running` that returned
true; hence once the flag is observed false, the name, variant, and pagination
loops exit at their next checkpoint and no further search attempts or scraped
records are emitted — but the synthetic clean summary of the name in progress
is not guarded by the flag and may still be emitted after cancellation. -/
theorem C2_amended_thm (env : WEnv) (fuel : ℕ) (p : ℕ × Ev)
    (hp : p ∈ (runWorker env fuel).events)
    (hkind : isSearchEv p.2 = true ∨ isScrapedRec p.2 = true) :
    0 < p.1 ∧ env.running (p.1 - 1) = true := by
  unfold runWorker at hp
  cases hfile : env.fileNames with
  | none =>
    rw [hfile] at hp
    rcases mem_emit.mp hp with h1 | rfl
    · rcases mem_emit.mp h1 with h2 | rfl
      · rcases mem_emit.mp h2 with h3 | rfl
        · exact absurd h3 (List.not_mem_nil p)
        · rcases hkind with hk | hk <;> simp at hk
      · rcases hkind with hk | hk <;> simp at hk
    · rcases hkind with hk | hk <;> simp at hk
  | some ls =>
    rw [hfile] at hp
    rcases mem_emit.mp hp with hp1 | hpe
    · rcases mem_emit.mp hp1 with hp2 | hpe
      · rcases nameLoop_good env fuel (parsedNames ls) 0
            (acquire env (emit .navigate (emit .setupDriver ⟨0, 0, "", []⟩))) p hp2
          with hmem | hgood
        · rcases mem_acquire.mp hmem with h1 | h2
          · rcases mem_emit.mp h1 with h1b | rfl
            · rcases mem_emit.mp h1b with h1c | rfl
              · exact absurd h1c (List.not_mem_nil p)
              · rcases hkind with hk | hk <;> simp at hk
            · rcases hkind with hk | hk <;> simp at hk
          · subst h2
            rcases hkind with h2 | h2 <;> simp at h2
        · exact hgood hkind
      · subst hpe
        rcases hkind with h2 | h2 <;> simp at h2
    · subst hpe
      rcases hkind with h2 | h2 <;> simp at h2

/-- Witness for C2's amended statement: the first search attempt of an
uncancelled run is stamped 3 and guarded by flag read 2. -/
theorem C2_witness :
    (3, Ev.search 0 0 0 "اب" "t") ∈ (runWorker envOk 1).events
    ∧ 0 < (3 : ℕ) ∧ envOk.running (3 - 1) = true :=
  ⟨by decide,
   C2_amended_thm envOk 1 (3, .search 0 0 0 "اب" "t") (by decide) (Or.inl rfl)⟩

/-! ## Claim C8: captcha-alert handling in the retry loop -/

theorem attemptLoop_shift (env : WEnv) (ni vi : ℕ) (name variant : String)
    (hrun : ∀ k, env.running k = true) :
    ∀ (n fuel ai : ℕ) (st : WSt), n < fuel →
      (∀ i, i < n → ∃ m, env.outcome ni vi (ai + i) = .alert m ∧ isCaptchaAlert m = true) →
      ∃ st2 : WSt,
        attemptLoop env ni vi name variant fuel ai st
          = attemptLoop env ni vi name variant (fuel - n) (ai + n) st2
        ∧ countOf (isSearchFor ni vi) st2.events
            = countOf (isSearchFor ni vi) st.events + n
        ∧ countOf isAcquireEv st2.events = countOf isAcquireEv st.events + n
        ∧ (∀ s, countOf (isScrapedFor s) st2.events = countOf (isScrapedFor s) st.events)
        ∧ countOf isRecordEv st2.events = countOf isRecordEv st.events := by
  intro n
  induction n with
  | zero =>
    intro fuel ai st _ _
    exact ⟨st, by rw [Nat.sub_zero, Nat.add_zero], by omega, by omega, fun s => rfl, rfl⟩
  | succ n ihm =>
    intro fuel ai st hn hpre
    cases fuel with
    | zero => omega
    | succ f =>
      have hr := hrun st.clock
      obtain ⟨m, hm, hca⟩ := hpre 0 (Nat.succ_pos n)
      rw [Nat.add_zero] at hm
      have hstep : attemptLoop env ni vi name variant (f + 1) ai st
          = attemptLoop env ni vi name variant f (ai + 1)
              (acquire env (emit (.search ni vi ai variant st.cap) (bump st))) := by
        simp [attemptLoop, hr, hm, hca]
      have hpre2 : ∀ i, i < n →
          ∃ m2, env.outcome ni vi (ai + 1 + i) = .alert m2 ∧ isCaptchaAlert m2 = true := by
        intro i hi
        have hh := hpre (i + 1) (by omega)
        rwa [show ai + (i + 1) = ai + 1 + i by omega] at hh
      obtain ⟨st2, e1, e2, e3, e4, e5⟩ := ihm f (ai + 1)
          (acquire env (emit (.search ni vi ai variant st.cap) (bump st))) (by omega) hpre2
      have ha : f + 1 - (n + 1) = f - n := by omega
      have hb : ai + (n + 1) = ai + 1 + n := by omega
      refine ⟨st2, ?_, ?_, ?_, ?_, ?_⟩
      · rw [ha, hb, hstep]
        exact e1
      · rw [e2, countOf_acquire, countOf_emit, countOf_bump]
        simp
        omega
      · rw [e3, countOf_acquire, countOf_emit, countOf_bump]
        simp
        omega
      · intro s
        rw [e4 s, countOf_acquire, countOf_emit, countOf_bump]
        simp
      · rw [e5, countOf_acquire, countOf_emit, countOf_bump]
        simp

/-- Claim C8 (confirmed): during one variant's retry loop, every attempt that
raises an invalid/expired-captcha alert triggers a fresh captcha acquisition
and a retry of the same variant: after `n` such alerts followed by a normal
outcome, exactly `n + 1` search attempts for this (name, variant) pair and
exactly `n` fresh acquisitions occur, and the loop ends in the normal
clean/conflict outcome (clean when no records were found; with a result
listing, the conflict flag is set iff the counted link items are positive).
An alert with any other message ends the variant after its single attempt
with no record emitted (abandoned as clean). -/
theorem C8_alert_handling (env : WEnv) (ni vi : ℕ) (name variant : String)
    (st : WSt) (fuel : ℕ) (hrun : ∀ k, env.running k = true) :
    (∀ n, n < fuel →
      (∀ ai, ai < n → ∃ m, env.outcome ni vi ai = .alert m ∧ isCaptchaAlert m = true) →
      (env.outcome ni vi n = .noRecords
        ∨ ∃ pages raises, env.outcome ni vi n = .results pages raises
            ∧ scrapeEscapes pages raises = false) →
      countOf (isSearchFor ni vi) (attemptLoop env ni vi name variant fuel 0 st).1.events
          = countOf (isSearchFor ni vi) st.events + (n + 1)
      ∧ countOf isAcquireEv (attemptLoop env ni vi name variant fuel 0 st).1.events
          = countOf isAcquireEv st.events + n
      ∧ (env.outcome ni vi n = .noRecords →
          (attemptLoop env ni vi name variant fuel 0 st).2 = false)
      ∧ (∀ pages raises, env.outcome ni vi n = .results pages raises →
          (attemptLoop env ni vi name variant fuel 0 st).2
            = decide (0 < countedItems pages)))
    ∧ (∀ msg, 0 < fuel → env.outcome ni vi 0 = .alert msg → isCaptchaAlert msg = false →
        (attemptLoop env ni vi name variant fuel 0 st).2 = false
        ∧ countOf isRecordEv (attemptLoop env ni vi name variant fuel 0 st).1.events
            = countOf isRecordEv st.events
        ∧ countOf (isSearchFor ni vi) (attemptLoop env ni vi name variant fuel 0 st).1.events
            = countOf (isSearchFor ni vi) st.events + 1) := by
  constructor
  · intro n hn hpre hterm
    obtain ⟨st2, e1, e2, e3, -, -⟩ := attemptLoop_shift env ni vi name variant hrun n fuel 0 st
        hn (by intro i hi; rw [Nat.zero_add]; exact hpre i hi)
    rw [Nat.zero_add] at e1
    obtain ⟨g, hg⟩ : ∃ g, fuel - n = g + 1 := ⟨fuel - n - 1, by omega⟩
    rw [hg] at e1
    have hr2 := hrun st2.clock
    rcases hterm with hnr | ⟨pages, raises, hres, hesc⟩
    · have hstep1 : (attemptLoop env ni vi name variant (g + 1) n st2).1
          = emit (.search ni vi n variant st2.cap) (bump st2) := by
        simp [attemptLoop, hr2, hnr]
      have hstep2 : (attemptLoop env ni vi name variant (g + 1) n st2).2 = false := by
        simp [attemptLoop, hr2, hnr]
      refine ⟨?_, ?_, ?_, ?_⟩
      · rw [e1, hstep1, countOf_emit, countOf_bump, e2]
        simp
        omega
      · rw [e1, hstep1, countOf_emit, countOf_bump, e3]
        simp
      · intro _
        rw [e1, hstep2]
      · intro pages2 raises2 hcon
        rw [hnr] at hcon
        simp at hcon
    · obtain ⟨s1, s2, -, s4, s5⟩ := scrape_all_pages_spec env name variant raises hrun pages
          (emit (.search ni vi n variant st2.cap) (bump st2)) 0
      have hstep1 : (attemptLoop env ni vi name variant (g + 1) n st2).1
          = (scrape_all_pages env name variant raises pages
              (emit (.search ni vi n variant st2.cap) (bump st2)) 0).1 := by
        simp [attemptLoop, hr2, hres, s2, hesc]
      have hstep2 : (attemptLoop env ni vi name variant (g + 1) n st2).2
          = decide (0 < (scrape_all_pages env name variant raises pages
              (emit (.search ni vi n variant st2.cap) (bump st2)) 0).2.1) := by
        simp [attemptLoop, hr2, hres, s2, hesc]
      refine ⟨?_, ?_, ?_, ?_⟩
      · rw [e1, hstep1, s4 ni vi, countOf_emit, countOf_bump, e2]
        simp
        omega
      · rw [e1, hstep1, s5, countOf_emit, countOf_bump, e3]
        simp
      · intro hcon
        rw [hres] at hcon
        simp at hcon
      · intro pages2 raises2 hres2
        have h12 := hres.symm.trans hres2
        rw [Outcome.results.injEq] at h12
        obtain ⟨rfl, rfl⟩ := h12
        rw [e1, hstep2, s1, Nat.zero_add]
  · intro msg hf h0 hca
    cases fuel with
    | zero => omega
    | succ f =>
      have hr := hrun st.clock
      have hstep1 : (attemptLoop env ni vi name variant (f + 1) 0 st).1
          = emit (.search ni vi 0 variant st.cap) (bump st) := by
        simp [attemptLoop, hr, h0, hca]
      have hstep2 : (attemptLoop env ni vi name variant (f + 1) 0 st).2 = false := by
        simp [attemptLoop, hr, h0, hca]
      refine ⟨hstep2, ?_, ?_⟩
      · rw [hstep1, countOf_emit, countOf_bump]
        simp
      · rw [hstep1, countOf_emit, countOf_bump]
        simp

set_option maxRecDepth 20000 in
/-- Witness for C8: one invalid-captcha alert followed by a clean outcome on
the same variant — two search attempts, one fresh acquisition, clean result. -/
theorem C8_witness :
    countOf (isSearchFor 0 0) (attemptLoop envC8 0 0 "اب" "اب" 2 0 wst0).1.events
        = countOf (isSearchFor 0 0) wst0.events + 2
    ∧ countOf isAcquireEv (attemptLoop envC8 0 0 "اب" "اب" 2 0 wst0).1.events
        = countOf isAcquireEv wst0.events + 1
    ∧ (envC8.outcome 0 0 1 = .noRecords →
        (attemptLoop envC8 0 0 "اب" "اب" 2 0 wst0).2 = false)
    ∧ (∀ pages raises, envC8.outcome 0 0 1 = .results pages raises →
        (attemptLoop envC8 0 0 "اب" "اب" 2 0 wst0).2 = decide (0 < countedItems pages)) :=
  (C8_alert_handling envC8 0 0 "اب" "اب" wst0 2 (fun _ => rfl)).1 1 (by omega)
    (by
      intro ai hai
      have h0 : ai = 0 := by omega
      subst h0
      exact ⟨"کد امنیتی اشتباه است", rfl, by decide⟩)
    (Or.inl rfl)

end TMSpec
